import Mathlib

/-!
Verification of the AGD chart-derivation pipeline.

The definitions below are a shallow embedding of the Python sources:
  - the image normalizer (`validate_image`, `auto_crop_whitespace`,
    `letterbox_resize`, `preprocess_single`) from
    `modal/data_pipeline/preprocess_charts.py`;
  - the stage-advancement runs (`preprocess_all`, `attack_all`,
    `explain_all`, `evaluate_all`) from the same directory;
  - the blob store (`put_image` / `get_image`) from `modal/aws.py`;
  - the ChartX import loop with its failure budget from
    `modal/data_pipeline/import_chartx.py`.

Modelling decisions (stated once here):
  - A decoded image is an RGB pixel grid (`Image`): PIL decoding and the
    alpha-compositing `convert_to_rgb` path are folded into the decode,
    so every `Image` is already 3-channel.  Corrupt byte streams are the
    `ImgBytes.corrupt` constructor; `validate_image` failing is exactly
    this case.
  - Python float arithmetic in `letterbox_resize` is modelled exactly
    over the integers: `round(w * (target / max(w',h')))` becomes
    round-half-to-even of the rational `w * target / max`, which is
    `natRoundHalfEven (w * target) (max w' h')`.
  - PIL LANCZOS resampling is modelled as point sampling
    (`resizeImage`); every resampler whose weights sum to one (LANCZOS
    included) agrees with it on the constant images the claims concern.
  - S3 is an association list plus a fresh-identifier counter; `uuid4`
    is modelled as allocating the counter value.
  - SQL `UPDATE`s become per-sample functional updates over the table
    list; `SELECT ... ORDER BY id` becomes an insertion sort of the
    filtered table.  `SELECT DISTINCT raw_graph` carries no ordering
    guarantee in SQL; the model fixes the order `List.dedup` yields.
  - The per-batch `conn.commit()` machinery only bounds crash damage
    and is not modelled; a run that raises is modelled as performing no
    visible writes (`Except.error`).
-/

namespace AGD

/-- One RGB pixel; channels range over 0..255. -/
structure Pix where
  r : Nat
  g : Nat
  b : Nat
deriving DecidableEq

/-- A decoded 3-channel image: dimensions plus a pixel function.
`pix x y` is meaningful for `x < width`, `y < height`. -/
structure Image where
  width : Nat
  height : Nat
  pix : Nat → Nat → Pix

/-- `TARGET_SIZE = 512` from `preprocess_charts.py`. -/
def TARGET_SIZE : Nat := 512

/-- `PAD_COLOR = (255, 255, 255)` from `preprocess_charts.py`. -/
def PAD_COLOR : Pix := ⟨255, 255, 255⟩

/-- `WHITESPACE_CROP_THRESHOLD = 245` from `preprocess_charts.py`. -/
def WHITESPACE_CROP_THRESHOLD : Nat := 245

/-- `WHITESPACE_CROP_MIN_BORDER = 5` from `preprocess_charts.py`. -/
def WHITESPACE_CROP_MIN_BORDER : Nat := 5

/-- `mask = np.any(arr < WHITESPACE_CROP_THRESHOLD, axis=2)` at one pixel:
true when any channel is below the whitespace threshold. -/
def maskAt (img : Image) (x y : Nat) : Bool :=
  decide ((img.pix x y).r < WHITESPACE_CROP_THRESHOLD) ||
  decide ((img.pix x y).g < WHITESPACE_CROP_THRESHOLD) ||
  decide ((img.pix x y).b < WHITESPACE_CROP_THRESHOLD)

/-- `rows = np.any(mask, axis=1)` at row `y`. -/
def rowHasContent (img : Image) (y : Nat) : Bool :=
  (List.range img.width).any fun x => maskAt img x y

/-- `cols = np.any(mask, axis=0)` at column `x`. -/
def colHasContent (img : Image) (x : Nat) : Bool :=
  (List.range img.height).any fun y => maskAt img x y

/-- `mask.any()`. -/
def maskAny (img : Image) : Bool :=
  (List.range img.height).any fun y => rowHasContent img y

/-- `np.where(v)[0][0]`: index of the first true entry, if any. -/
def firstIdx (p : Nat → Bool) (n : Nat) : Option Nat :=
  (List.range n).find? p

/-- `np.where(v)[0][-1]`: index of the last true entry, if any. -/
def lastIdx (p : Nat → Bool) (n : Nat) : Option Nat :=
  ((List.range n).filter p).getLast?

/-- A PIL crop box `[left, top, right, bottom]`. -/
structure CropBox where
  left : Nat
  top : Nat
  right : Nat
  bottom : Nat
deriving DecidableEq

/-- `img.crop(box)`: the sub-image with the box's extent. -/
def cropImage (img : Image) (box : CropBox) : Image :=
  ⟨box.right - box.left, box.bottom - box.top,
   fun x y => img.pix (box.left + x) (box.top + y)⟩

/-- `auto_crop_whitespace` from `preprocess_charts.py`.  The Python code
indexes `np.where(rows)[0]` unconditionally after checking `mask.any()`;
the catch-all match arm mirrors the `IndexError` that an empty index
array would raise and is proved unreachable below. -/
def auto_crop_whitespace (img : Image) : Image × CropBox :=
  if maskAny img then
    match firstIdx (rowHasContent img) img.height,
          lastIdx (rowHasContent img) img.height,
          firstIdx (colHasContent img) img.width,
          lastIdx (colHasContent img) img.width with
    | some rmin0, some rmax0, some cmin0, some cmax0 =>
      let margin := WHITESPACE_CROP_MIN_BORDER
      let rmin := rmin0 - margin
      let rmax := min (img.height - 1) (rmax0 + margin)
      let cmin := cmin0 - margin
      let cmax := min (img.width - 1) (cmax0 + margin)
      let box : CropBox := ⟨cmin, rmin, cmax + 1, rmax + 1⟩
      (cropImage img box, box)
    | _, _, _, _ => (img, ⟨0, 0, img.width, img.height⟩)
  else
    (img, ⟨0, 0, img.width, img.height⟩)

/-- Python `round(a / b)` for naturals `a`, `b` (round half to even,
Python's rounding mode), computed exactly. -/
def natRoundHalfEven (a b : Nat) : Nat :=
  if 2 * (a % b) < b then a / b
  else if b < 2 * (a % b) then a / b + 1
  else if (a / b) % 2 = 0 then a / b else a / b + 1

/-- `img.resize((nw, nh), Image.LANCZOS)`, modelled as point sampling
(see the modelling note at the top of the file). -/
def resizeImage (img : Image) (nw nh : Nat) : Image :=
  ⟨nw, nh, fun x y => img.pix (x * img.width / nw) (y * img.height / nh)⟩

/-- The metadata dict returned by `letterbox_resize`.  The float field
`scale` is a deterministic function of the input dimensions and the
target size and is omitted from the embedding. -/
structure LetterboxMeta where
  offset_x : Nat
  offset_y : Nat
  resized_w : Nat
  resized_h : Nat
deriving DecidableEq

/-- `letterbox_resize` from `preprocess_charts.py`: scale so the longer
side equals `target_size`, then paste centred on a `target_size` square
canvas filled with `PAD_COLOR`. -/
def letterbox_resize (img : Image) (target_size : Nat) : Image × LetterboxMeta :=
  let w := img.width
  let h := img.height
  let new_w := natRoundHalfEven (w * target_size) (max w h)
  let new_h := natRoundHalfEven (h * target_size) (max w h)
  let resized := resizeImage img new_w new_h
  let offset_x := (target_size - new_w) / 2
  let offset_y := (target_size - new_h) / 2
  let canvas : Image :=
    ⟨target_size, target_size, fun x y =>
      if offset_x ≤ x ∧ x < offset_x + new_w ∧ offset_y ≤ y ∧ y < offset_y + new_h then
        resized.pix (x - offset_x) (y - offset_y)
      else PAD_COLOR⟩
  (canvas, ⟨offset_x, offset_y, new_w, new_h⟩)

/-- A blob's content: either bytes that fail PIL decode/verify
(`validate_image` returns false) or a decoded RGB image. -/
inductive ImgBytes where
  | corrupt : ImgBytes
  | valid : Image → ImgBytes

/-- The `meta` dict written to `preprocess_meta` (float `scale` omitted,
see `LetterboxMeta`). -/
structure PreMeta where
  crop_box : CropBox
  offset_x : Nat
  offset_y : Nat
  resized_w : Nat
  resized_h : Nat
  target_size : Nat
deriving DecidableEq

/-- The non-image part of `preprocess_single`'s result dict. -/
structure PreResult where
  original_width : Nat
  original_height : Nat
  meta : PreMeta
deriving DecidableEq

/-- `preprocess_single` from `preprocess_charts.py`: validate, convert
to RGB (folded into decode), auto-crop, letterbox, encode.  PNG
encoding is the identity on the pixel grid here, so the produced blob
is the canvas itself. -/
def preprocess_single (b : ImgBytes) : Option (Image × PreResult) :=
  match b with
  | .corrupt => none
  | .valid img0 =>
    let ow := img0.width
    let oh := img0.height
    let cropped := (auto_crop_whitespace img0).1
    let box := (auto_crop_whitespace img0).2
    let canvas := (letterbox_resize cropped TARGET_SIZE).1
    let lb := (letterbox_resize cropped TARGET_SIZE).2
    some (canvas,
      ⟨ow, oh, ⟨box, lb.offset_x, lb.offset_y, lb.resized_w, lb.resized_h, TARGET_SIZE⟩⟩)

/-- One row of the `samples` table (`create_table_if_not_exists` in
`modal/aws.py`).  UUID columns are modelled as `Nat` identifiers; the
unused `hidden_graph`, `source`, `graph_type` and `created_at` columns
are irrelevant to every claim except that `source`/`question`/answers
travel along, so only the columns the stages read or write are kept,
plus `question`/`good_answer` which the stubs consume. -/
structure Sample where
  id : Nat
  question : String
  good_answer : String
  raw_graph : Nat
  good_graph : Option Nat
  preprocess_meta : Option PreMeta
  original_width : Option Nat
  original_height : Option Nat
  hidden_answer : Option String
  adversarial_graph : Option Nat
  output_answer : Option String
  attack_succeeded : Option Bool
deriving DecidableEq

/-- The S3 blob store (`modal/aws.py`): contents addressed by opaque
identifiers, plus the supply of fresh identifiers `uuid4` draws from. -/
structure Store where
  blobs : List (Nat × ImgBytes)
  next : Nat

/-- `get_image`: `none` models the `KeyError` raised on a missing key. -/
def Store.get (s : Store) (k : Nat) : Option ImgBytes :=
  s.blobs.lookup k

/-- `put_image`: store under a freshly generated identifier and return it. -/
def Store.put (s : Store) (b : ImgBytes) : Nat × Store :=
  (s.next, ⟨(s.next, b) :: s.blobs, s.next + 1⟩)

/-- Running state of one `preprocess_all` invocation
(`modal/data_pipeline/preprocess_charts.py`).  `trace` is a ghost field
recording each raw key on which `preprocess_single` was invoked. -/
structure PreState where
  table : List Sample
  store : Store
  processed : Nat
  rows_updated : Nat
  skipped : Nat
  trace : List Nat

/-- `WHERE raw_graph = %s AND good_graph IS NULL`: the rows one
preprocessing UPDATE matches. -/
def preHit (raw_uuid : Nat) (s : Sample) : Bool :=
  decide (s.raw_graph = raw_uuid ∧ s.good_graph = none)

/-- The preprocessing UPDATE's effect on one row: set the four output
columns when the row matches, leave it untouched otherwise. -/
def preUpd (raw_uuid processed_uuid : Nat) (res : PreResult) (s : Sample) : Sample :=
  if s.raw_graph = raw_uuid ∧ s.good_graph = none then
    { s with good_graph := some processed_uuid,
             preprocess_meta := some res.meta,
             original_width := some res.original_width,
             original_height := some res.original_height }
  else s

/-- The body of `preprocess_all`'s per-key loop: download the raw blob
(`KeyError` ⇒ skip), run `preprocess_single` (`None` ⇒ skip), upload
the result under a fresh identifier, and update every row sharing this
`raw_graph` whose `good_graph` is still NULL. -/
def preprocessKeyStep (st : PreState) (raw_uuid : Nat) : PreState :=
  match st.store.get raw_uuid with
  | none => { st with skipped := st.skipped + 1 }
  | some raw_bytes =>
    match preprocess_single raw_bytes with
    | none =>
      { st with skipped := st.skipped + 1, trace := st.trace ++ [raw_uuid] }
    | some (out_img, res) =>
      { table := st.table.map (preUpd raw_uuid (st.store.put (ImgBytes.valid out_img)).1 res),
        store := (st.store.put (ImgBytes.valid out_img)).2,
        processed := st.processed + 1,
        rows_updated := st.rows_updated + (st.table.filter (preHit raw_uuid)).length,
        skipped := st.skipped,
        trace := st.trace ++ [raw_uuid] }

/-- `SELECT DISTINCT raw_graph FROM samples WHERE good_graph IS NULL`
(no ORDER BY; the model fixes the order `List.dedup` yields). -/
def preprocessKeys (t : List Sample) : List Nat :=
  ((t.filter fun s => decide (s.good_graph = none)).map (fun s => s.raw_graph)).dedup

/-- `preprocess_all` from `modal/data_pipeline/preprocess_charts.py`:
fold the per-key loop over the distinct raw keys.  The function takes
no row-count limit (the source has none). -/
def preprocess_all (t : List Sample) (store : Store) : PreState :=
  (preprocessKeys t).foldl preprocessKeyStep ⟨t, store, 0, 0, 0, []⟩

/-- `a.id ≤ b.id`: the `ORDER BY id` comparison. -/
def idLe (a b : Sample) : Prop := a.id ≤ b.id

instance : DecidableRel idLe := fun a b => Nat.decLe a.id b.id

instance : IsTotal Sample idLe := ⟨fun a b => Nat.le_total a.id b.id⟩

instance : IsTrans Sample idLe := ⟨fun _ _ _ hab hbc => Nat.le_trans hab hbc⟩

/-- Running state of one `attack_all` invocation
(`modal/data_pipeline/agd.py`).  `trace` records each good key the
(stub) attack transform ran on; `written_ids` records, in order, the
ids of the rows each UPDATE matched. -/
structure AttackState where
  table : List Sample
  store : Store
  attacked : Nat
  rows_updated : Nat
  trace : List Nat
  written_ids : List Nat

/-- `SELECT DISTINCT good_graph FROM samples WHERE good_graph IS NOT
NULL AND adversarial_graph IS NULL ORDER BY good_graph LIMIT max_rows`
(`max_rows = 0` means no LIMIT clause). -/
def attackKeys (t : List Sample) (max_rows : Nat) : List Nat :=
  let keys :=
    (((t.filter fun s =>
        decide (s.good_graph ≠ none ∧ s.adversarial_graph = none)).filterMap
          (fun s => s.good_graph)).dedup).insertionSort (· ≤ ·)
  if 0 < max_rows then keys.take max_rows else keys

/-- `WHERE good_graph = %s AND adversarial_graph IS NULL`: the rows one
perturbation UPDATE matches. -/
def attackHit (good_uuid : Nat) (s : Sample) : Bool :=
  decide (s.good_graph = some good_uuid ∧ s.adversarial_graph = none)

/-- The perturbation UPDATE's effect on one row. -/
def attackUpd (good_uuid adversarial_uuid : Nat) (s : Sample) : Sample :=
  if s.good_graph = some good_uuid ∧ s.adversarial_graph = none then
    { s with adversarial_graph := some adversarial_uuid }
  else s

/-- The body of `attack_all`'s per-key loop.  `get_image` is called
with no try/except: a missing blob raises, aborting the run.  The stub
attack is the identity on the blob. -/
def attackKeyStep (st : AttackState) (good_uuid : Nat) : Except String AttackState :=
  match st.store.get good_uuid with
  | none => .error "KeyError"
  | some good_bytes =>
    .ok { table := st.table.map (attackUpd good_uuid (st.store.put good_bytes).1),
          store := (st.store.put good_bytes).2,
          attacked := st.attacked + 1,
          rows_updated := st.rows_updated + (st.table.filter (attackHit good_uuid)).length,
          trace := st.trace ++ [good_uuid],
          written_ids := st.written_ids ++ (st.table.filter (attackHit good_uuid)).map (fun s => s.id) }

/-- The per-key loop of `attack_all`, stopping at the first raised
error (uncommitted work is not modelled, see the file header). -/
def attackRun (keys : List Nat) (st : AttackState) : Except String AttackState :=
  match keys with
  | [] => .ok st
  | k :: ks =>
    match attackKeyStep st k with
    | .ok st2 => attackRun ks st2
    | .error e => .error e

/-- `attack_all` from `modal/data_pipeline/agd.py`. -/
def attack_all (t : List Sample) (store : Store) (max_rows : Nat) :
    Except String AttackState :=
  attackRun (attackKeys t max_rows) ⟨t, store, 0, 0, [], []⟩

/-- `SELECT id, good_graph, question FROM samples WHERE good_graph IS
NOT NULL AND hidden_answer IS NULL ORDER BY id LIMIT max_rows`.  The
model keeps whole rows. -/
def explainRows (t : List Sample) (max_rows : Nat) : List Sample :=
  let rows :=
    (t.filter fun s =>
      decide (s.good_graph ≠ none ∧ s.hidden_answer = none)).insertionSort idLe
  if 0 < max_rows then rows.take max_rows else rows

/-- Running state of one `explain_all` invocation
(`modal/data_pipeline/explain.py`). -/
structure ExplainState where
  table : List Sample
  store : Store
  explained : Nat
  written_ids : List Nat

/-- `UPDATE samples SET hidden_answer = %s WHERE id = %s` on one row
(no NULL guard, exactly as in the source). -/
def explainUpd (i : Nat) (description : String) (s : Sample) : Sample :=
  if s.id = i then { s with hidden_answer := some description } else s

/-- The body of `explain_all`'s per-row loop: download the good blob
(uncaught `KeyError` aborts), build the placeholder description, and
update the row by id. -/
def explainStep (st : ExplainState) (row : Sample) : Except String ExplainState :=
  match row.good_graph with
  | none => .error "null good_graph"
  | some good_uuid =>
    match st.store.get good_uuid with
    | none => .error "KeyError"
    | some _img =>
      .ok { table := st.table.map (explainUpd row.id
              ("[PLACEHOLDER] Description of chart " ++ toString good_uuid ++
                " for: " ++ row.question)),
            store := st.store,
            explained := st.explained + 1,
            written_ids := st.written_ids ++ [row.id] }

/-- The per-row loop of `explain_all`. -/
def explainRun (rows : List Sample) (st : ExplainState) : Except String ExplainState :=
  match rows with
  | [] => .ok st
  | r :: rs =>
    match explainStep st r with
    | .ok st2 => explainRun rs st2
    | .error e => .error e

/-- `explain_all` from `modal/data_pipeline/explain.py`. -/
def explain_all (t : List Sample) (store : Store) (max_rows : Nat) :
    Except String ExplainState :=
  explainRun (explainRows t max_rows) ⟨t, store, 0, []⟩

/-- `.strip().lower()` on an answer string. -/
def strNormalize (s : String) : String := s.trim.toLower

/-- `SELECT id, adversarial_graph, question, good_answer FROM samples
WHERE adversarial_graph IS NOT NULL AND output_answer IS NULL ORDER BY
id LIMIT max_rows`. -/
def evalRows (t : List Sample) (max_rows : Nat) : List Sample :=
  let rows :=
    (t.filter fun s =>
      decide (s.adversarial_graph ≠ none ∧ s.output_answer = none)).insertionSort idLe
  if 0 < max_rows then rows.take max_rows else rows

/-- Running state of one `evaluate_all` invocation
(`modal/data_pipeline/eval.py`). -/
structure EvalState where
  table : List Sample
  store : Store
  evaluated : Nat
  succeeded : Nat
  failed : Nat
  written_ids : List Nat

/-- `UPDATE samples SET output_answer = %s, attack_succeeded = %s WHERE
id = %s` on one row (no NULL guard, exactly as in the source). -/
def evalUpd (i : Nat) (output_answer : String) (atk : Bool) (s : Sample) : Sample :=
  if s.id = i then
    { s with output_answer := some output_answer, attack_succeeded := some atk }
  else s

/-- The body of `evaluate_all`'s per-row loop: download the adversarial
blob (uncaught `KeyError` aborts), stub the VLM output as the stored
good answer, compare after strip/lower, and update both output columns
by id. -/
def evalStep (st : EvalState) (row : Sample) : Except String EvalState :=
  match row.adversarial_graph with
  | none => .error "null adversarial_graph"
  | some adv_uuid =>
    match st.store.get adv_uuid with
    | none => .error "KeyError"
    | some _img =>
      .ok { table := st.table.map (evalUpd row.id row.good_answer
              (decide (strNormalize row.good_answer ≠ strNormalize row.good_answer))),
            store := st.store,
            evaluated := st.evaluated + 1,
            succeeded := st.succeeded +
              (if decide (strNormalize row.good_answer ≠ strNormalize row.good_answer)
                then 1 else 0),
            failed := st.failed +
              (if decide (strNormalize row.good_answer ≠ strNormalize row.good_answer)
                then 0 else 1),
            written_ids := st.written_ids ++ [row.id] }

/-- The per-row loop of `evaluate_all`. -/
def evalRun (rows : List Sample) (st : EvalState) : Except String EvalState :=
  match rows with
  | [] => .ok st
  | r :: rs =>
    match evalStep st r with
    | .ok st2 => evalRun rs st2
    | .error e => .error e

/-- `evaluate_all` from `modal/data_pipeline/eval.py`. -/
def evaluate_all (t : List Sample) (store : Store) (max_rows : Nat) :
    Except String EvalState :=
  evalRun (evalRows t max_rows) ⟨t, store, 0, 0, 0, []⟩

/-- `MAX_FAILURES = 50` from `modal/data_pipeline/import_chartx.py`. -/
def MAX_FAILURES : Nat := 50

/-- The ChartX import loop (`main` in `import_chartx.py`), with one
boolean per dataset row: `true` when the row's image resolves, uploads
and inserts without raising, `false` when its processing raises.  The
per-split structure of the source collapses: the `break` at the top of
each inner loop makes the iteration a single stop-on-budget pass over
the concatenated rows.  Returns `.error failures` for the final
`RuntimeError` and `.ok (processed, failures)` for a normal return
(including the early `return` once `max_rows` is reached). -/
def importGo (rows : List Bool) (max_rows : Option Nat)
    (processed failures : Nat) : Except Nat (Nat × Nat) :=
  match rows with
  | [] =>
    if MAX_FAILURES ≤ failures then .error failures else .ok (processed, failures)
  | r :: rest =>
    if MAX_FAILURES ≤ failures then .error failures
    else if r then
      match max_rows with
      | some m =>
        if m ≤ processed + 1 then .ok (processed + 1, failures)
        else importGo rest max_rows (processed + 1) failures
      | none => importGo rest max_rows (processed + 1) failures
    else
      if MAX_FAILURES ≤ failures + 1 then .error (failures + 1)
      else importGo rest max_rows processed (failures + 1)

/-- One `main(max_rows)` invocation of the ChartX import. -/
def importChartX (rows : List Bool) (max_rows : Option Nat) : Except Nat (Nat × Nat) :=
  importGo rows max_rows 0 0

/-- The write-once-when-null relation between a sample before a stage
run and the same row after it: the key and QA columns never change, and
every nullable column keeps its value whenever it was already set. -/
def WriteOnce (s s2 : Sample) : Prop :=
  s2.id = s.id ∧ s2.question = s.question ∧ s2.good_answer = s.good_answer ∧
  s2.raw_graph = s.raw_graph ∧
  (s.good_graph ≠ none → s2.good_graph = s.good_graph) ∧
  (s.preprocess_meta ≠ none → s2.preprocess_meta = s.preprocess_meta) ∧
  (s.original_width ≠ none → s2.original_width = s.original_width) ∧
  (s.original_height ≠ none → s2.original_height = s.original_height) ∧
  (s.hidden_answer ≠ none → s2.hidden_answer = s.hidden_answer) ∧
  (s.adversarial_graph ≠ none → s2.adversarial_graph = s.adversarial_graph) ∧
  (s.output_answer ≠ none → s2.output_answer = s.output_answer) ∧
  (s.attack_succeeded ≠ none → s2.attack_succeeded = s.attack_succeeded)

/-- Column coupling every pipeline-produced row satisfies: the four
preprocessing outputs are set together (one UPDATE writes all four),
and the two evaluation outputs are set together. -/
def Coupled (s : Sample) : Prop :=
  (s.good_graph = none →
    s.preprocess_meta = none ∧ s.original_width = none ∧ s.original_height = none) ∧
  (s.output_answer = none → s.attack_succeeded = none)

instance (s : Sample) : Decidable (Coupled s) := by
  unfold Coupled
  infer_instance

/-- An optional blob reference lies below the store's fresh counter. -/
def optBelow (o : Option Nat) (n : Nat) : Prop :=
  match o with
  | none => True
  | some g => g < n

instance (o : Option Nat) (n : Nat) : Decidable (optBelow o n) := by
  cases o
  · exact isTrue trivial
  · exact Nat.decLt _ n

/-- Every blob identifier the table references was allocated before the
store's fresh counter — true of every real table, since `uuid4` never
collides with an existing key; it rules out the model artifact of a
"missing" reference later colliding with a fresh allocation. -/
def RefsBelow (t : List Sample) (n : Nat) : Prop :=
  ∀ s ∈ t, s.raw_graph < n ∧ optBelow s.good_graph n ∧ optBelow s.adversarial_graph n

instance (t : List Sample) (n : Nat) : Decidable (RefsBelow t n) := by
  unfold RefsBelow
  infer_instance

/-- The raw key can be fetched and normalized: `get_image` succeeds and
`preprocess_single` returns a result. -/
def keyOk (store : Store) (k : Nat) : Prop :=
  match store.get k with
  | none => False
  | some b => (preprocess_single b).isSome

instance (store : Store) (k : Nat) : Decidable (keyOk store k) := by
  unfold keyOk
  cases store.get k
  · exact isFalse (fun h => h)
  · exact instDecidableEqBool _ true

/-- No pixel has any channel below the whitespace threshold: the
"blank image" condition of the auto-crop. -/
def Blank (img : Image) : Prop :=
  ∀ x y, x < img.width → y < img.height → maskAt img x y = false

instance (img : Image) : Decidable (Blank img) :=
  decidable_of_iff
    (∀ x ∈ List.range img.width, ∀ y ∈ List.range img.height, maskAt img x y = false)
    (by
      constructor
      · intro h x y hx hy
        exact h x (List.mem_range.mpr hx) y (List.mem_range.mpr hy)
      · intro h x hx y hy
        exact h x y (List.mem_range.mp hx) (List.mem_range.mp hy))

/-- Every pixel equals the background color. -/
def AllPad (img : Image) : Prop :=
  ∀ x y, x < img.width → y < img.height → img.pix x y = PAD_COLOR

instance (img : Image) : Decidable (AllPad img) :=
  decidable_of_iff
    (∀ x ∈ List.range img.width, ∀ y ∈ List.range img.height, img.pix x y = PAD_COLOR)
    (by
      constructor
      · intro h x y hx hy
        exact h x (List.mem_range.mpr hx) y (List.mem_range.mpr hy)
      · intro h x hx y hy
        exact h x y (List.mem_range.mp hx) (List.mem_range.mp hy))

/-- A freshly ingested sample (`add_sample_row` in `modal/aws.py`):
only the QA fields and `raw_graph` populated. -/
def mkSample (i raw : Nat) (q a : String) : Sample :=
  ⟨i, q, a, raw, none, none, none, none, none, none, none, none⟩

/-- 1×1 background-colored image (the composited transparent pixel of
the spec's scenario). -/
def whiteImg : Image := ⟨1, 1, fun _ _ => PAD_COLOR⟩

/-- 1×1 image of constant (250,250,250): above the crop threshold on
every channel, yet not the background color. -/
def nearWhiteImg : Image := ⟨1, 1, fun _ _ => ⟨250, 250, 250⟩⟩

/-- 2×1 image whose left pixel is black. -/
def dotImg : Image := ⟨2, 1, fun x _ => if x = 0 then ⟨0, 0, 0⟩ else PAD_COLOR⟩

instance : Inhabited Image := ⟨⟨0, 0, fun _ _ => PAD_COLOR⟩⟩

instance : Inhabited ImgBytes := ⟨ImgBytes.corrupt⟩

instance : Inhabited Store := ⟨⟨[], 0⟩⟩

instance : Inhabited Sample := ⟨mkSample 0 0 "" ""⟩

instance : Inhabited AttackState := ⟨⟨[], default, 0, 0, [], []⟩⟩

instance : Inhabited ExplainState := ⟨⟨[], default, 0, []⟩⟩

instance : Inhabited EvalState := ⟨⟨[], default, 0, 0, 0, []⟩⟩

/-- The metadata normalizing the 1×1 background image produces. -/
def whiteMeta : PreMeta := ⟨⟨0, 0, 1, 1⟩, 0, 0, 512, 512, 512⟩

/-- C2 scenario: sample already preprocessed in an earlier run (its
`good_graph` is 7), sharing `raw_graph = 0` with a still-unprocessed
sample. -/
def c2A : Sample := ⟨1, "q", "a", 0, some 7, some whiteMeta, some 1, some 1,
  none, none, none, none⟩

/-- C2 scenario: the fresh unprocessed sample sharing `raw_graph = 0`. -/
def c2B : Sample := mkSample 2 0 "q" "a"

def c2Table : List Sample := [c2A, c2B]

/-- Store for the C2 scenario: blob 0 decodes fine; identifier 7 was
allocated in a past run (all references are below `next = 100`). -/
def c2Store : Store := ⟨[(0, ImgBytes.valid whiteImg)], 100⟩

/-- 49 failing dataset rows: below the import failure budget. -/
def budgetRowsOk : List Bool := List.replicate 49 false

/-- 50 failing dataset rows: at the import failure budget. -/
def budgetRowsBad : List Bool := List.replicate 50 false

/-- 51 samples whose raw blobs are all absent from the store. -/
def c5Table : List Sample := (List.range 51).map fun i => mkSample i i "q" "a"

def c5Store : Store := ⟨[], 100⟩

/-- One sample eligible for perturbation whose `good_graph` blob is
absent from the store. -/
def c6Sample : Sample := ⟨1, "q", "a", 0, some 5, none, none, none, none, none, none, none⟩

def c6Table : List Sample := [c6Sample]

def c6Store : Store := ⟨[], 10⟩

/-- Two perturbation-eligible samples whose id order is the reverse of
their `good_graph` key order. -/
def c7Table : List Sample :=
  [⟨1, "q", "a", 0, some 9, none, none, none, none, none, none, none⟩,
   ⟨2, "q", "a", 0, some 3, none, none, none, none, none, none, none⟩]

def c7Store : Store := ⟨[(3, ImgBytes.corrupt), (9, ImgBytes.corrupt)], 10⟩

/-- The state the C7 perturbation run ends in. -/
def c7Run : AttackState := ((attack_all c7Table c7Store 0).toOption).getD default

/-- A small table on which every stage has work to do and succeeds:
one unpreprocessed sample, one preprocessed sample awaiting attack and
explanation, one attacked sample awaiting evaluation. -/
def wTable : List Sample :=
  [mkSample 1 0 "q1" "a1",
   ⟨2, "q2", "a2", 0, some 5, some whiteMeta, some 1, some 1, none, none, none, none⟩,
   ⟨3, "q3", "a3", 1, some 5, some whiteMeta, some 1, some 1, none, some 6, none, none⟩]

def wStore : Store :=
  ⟨[(0, ImgBytes.valid whiteImg), (1, ImgBytes.valid whiteImg),
    (5, ImgBytes.valid whiteImg), (6, ImgBytes.valid whiteImg)], 10⟩

/-- The states the witness runs end in. -/
def wAttackRun : AttackState := ((attack_all wTable wStore 0).toOption).getD default

def wExplainRun : ExplainState := ((explain_all wTable wStore 0).toOption).getD default

def wEvalRun : EvalState := ((evaluate_all wTable wStore 0).toOption).getD default

def wExplainRun1 : ExplainState := ((explain_all wTable wStore 1).toOption).getD default

def wEvalRun1 : EvalState := ((evaluate_all wTable wStore 1).toOption).getD default

/-- Two fresh samples sharing one raw reference (the sharing scenario
with both rows unprocessed). -/
def shareTable : List Sample := [mkSample 1 0 "qa" "aa", mkSample 2 0 "qb" "ab"]

/-- Pointwise relation between the table before a stage run and after:
same length, and each row write-once-related to its original and still
satisfying the column coupling. -/
def TblRel (t0 t : List Sample) : Prop :=
  t.length = t0.length ∧
  ∀ i s0 s, t0.get? i = some s0 → t.get? i = some s → WriteOnce s0 s ∧ Coupled s

/-- The write-once contract of claim C1, for all four stage runs (an
aborting run performs no visible writes in this model, see the file
header). -/
def WriteOnceRun (t : List Sample) (store : Store) (mr : Nat) : Prop :=
  (∀ i s0 s1, t.get? i = some s0 →
    (preprocess_all t store).table.get? i = some s1 → WriteOnce s0 s1) ∧
  (∀ st1, attack_all t store mr = Except.ok st1 →
    ∀ i s0 s1, t.get? i = some s0 → st1.table.get? i = some s1 → WriteOnce s0 s1) ∧
  (∀ st1, explain_all t store mr = Except.ok st1 →
    ∀ i s0 s1, t.get? i = some s0 → st1.table.get? i = some s1 → WriteOnce s0 s1) ∧
  (∀ st1, evaluate_all t store mr = Except.ok st1 →
    ∀ i s0 s1, t.get? i = some s0 → st1.table.get? i = some s1 → WriteOnce s0 s1)

/-- The idempotence contract of claim C3: a second full run right after
a completed first run writes zero rows and leaves the table unchanged,
for each of the four stages. -/
def IdempotentRun (t : List Sample) (store : Store) : Prop :=
  ((preprocess_all (preprocess_all t store).table (preprocess_all t store).store).rows_updated = 0 ∧
   (preprocess_all (preprocess_all t store).table (preprocess_all t store).store).table =
     (preprocess_all t store).table) ∧
  (∀ st1, attack_all t store 0 = Except.ok st1 →
    attack_all st1.table st1.store 0 = Except.ok ⟨st1.table, st1.store, 0, 0, [], []⟩) ∧
  (∀ st1, explain_all t store 0 = Except.ok st1 →
    explain_all st1.table st1.store 0 = Except.ok ⟨st1.table, st1.store, 0, []⟩) ∧
  (∀ st1, evaluate_all t store 0 = Except.ok st1 →
    evaluate_all st1.table st1.store 0 = Except.ok ⟨st1.table, st1.store, 0, 0, 0, []⟩)

/-- The missing-blob contract of claim C6 as amended: preprocessing
skips the key, completes, and leaves the sample untouched; the other
three stages abort with an uncaught error. -/
def MissingBlobBehavior (t : List Sample) (store : Store) : Prop :=
  (∀ i s, t.get? i = some s → s.good_graph = none → store.get s.raw_graph = none →
    (preprocess_all t store).table.get? i = some s ∧
      1 ≤ (preprocess_all t store).skipped) ∧
  (∀ g, (∃ s ∈ t, s.good_graph = some g ∧ s.adversarial_graph = none) →
    store.get g = none → ∃ e, attack_all t store 0 = Except.error e) ∧
  (∀ r ∈ t, ∀ g, r.good_graph = some g → r.hidden_answer = none →
    store.get g = none → ∃ e, explain_all t store 0 = Except.error e) ∧
  (∀ r ∈ t, ∀ g, r.adversarial_graph = some g → r.output_answer = none →
    store.get g = none → ∃ e, evaluate_all t store 0 = Except.error e)

/-- The ordering contract of claim C7 as amended: explanation and
evaluation select and advance by ascending id and are resumable via the
limit; perturbation selects distinct content keys in ascending key
order with a key-count limit. -/
def OrderedAdvancement (t : List Sample) (store : Store) (mr : Nat) : Prop :=
  List.Sorted (· ≤ ·) ((explainRows t mr).map (fun s => s.id)) ∧
  List.Sorted (· ≤ ·) ((evalRows t mr).map (fun s => s.id)) ∧
  List.Sorted (· ≤ ·) (attackKeys t mr) ∧
  (0 < mr → explainRows t mr = (explainRows t 0).take mr ∧
    evalRows t mr = (evalRows t 0).take mr ∧
    attackKeys t mr = (attackKeys t 0).take mr) ∧
  (∀ st1, explain_all t store mr = Except.ok st1 →
    st1.written_ids = (explainRows t mr).map (fun s => s.id)) ∧
  (∀ st1, evaluate_all t store mr = Except.ok st1 →
    st1.written_ids = (evalRows t mr).map (fun s => s.id))

/-- The dedup contract of claim C8: within one run each content key has
its transform applied at most once. -/
def TransformOnce (t : List Sample) (store : Store) (mr k : Nat) : Prop :=
  (preprocess_all t store).trace.count k ≤ 1 ∧
  (∀ st1, attack_all t store mr = Except.ok st1 → st1.trace.count k ≤ 1)

/-- The sharing contract of claim C2 as amended, at two row positions:
after the run both rows hold equal preprocessing outputs. -/
def SharingRun (t : List Sample) (store : Store) (i j : Nat) : Prop :=
  ∃ si sj, (preprocess_all t store).table.get? i = some si ∧
    (preprocess_all t store).table.get? j = some sj ∧
    si.good_graph = sj.good_graph ∧ si.preprocess_meta = sj.preprocess_meta ∧
    si.original_width = sj.original_width ∧ si.original_height = sj.original_height

/-- The failure-budget contract of claim C5 as amended: the ChartX
importer absorbs fewer than `MAX_FAILURES` per-row failures, completing
with exact counters, aborts with the run-level error once failures
reach `MAX_FAILURES`; the preprocessing stage never aborts — it always
completes, counting every failing key as skipped. -/
def FailureBudget : Prop :=
  (∀ rows : List Bool, rows.count false < MAX_FAILURES →
    importChartX rows none = Except.ok (rows.count true, rows.count false)) ∧
  (∀ rows : List Bool, MAX_FAILURES ≤ rows.count false →
    importChartX rows none = Except.error MAX_FAILURES) ∧
  (∀ (t : List Sample) (store : Store), RefsBelow t store.next →
    (preprocess_all t store).skipped =
      ((preprocessKeys t).filter (fun k => decide (¬ keyOk store k))).length)

/-- The letterbox-geometry contract of claim C4, for the image handed
to the letterbox step: longer resized side exactly the target, a
target-square canvas, and cross-multiplied aspect ratio preserved
within the half-unit rounding bound. -/
def LetterboxGeometry (img : Image) : Prop :=
  max (letterbox_resize img TARGET_SIZE).2.resized_w
      (letterbox_resize img TARGET_SIZE).2.resized_h = TARGET_SIZE ∧
  (letterbox_resize img TARGET_SIZE).1.width = TARGET_SIZE ∧
  (letterbox_resize img TARGET_SIZE).1.height = TARGET_SIZE ∧
  2 * |((letterbox_resize img TARGET_SIZE).2.resized_w : ℤ) * img.height -
        ((letterbox_resize img TARGET_SIZE).2.resized_h : ℤ) * img.width|
    ≤ (img.width : ℤ) + img.height

/-- The crop-safety contract of claim C10: the box is within bounds and
nonempty, the cropped image has the box's positive extent, and the
`np.where(...)[0]` index accesses are defined whenever the code reaches
them (`mask.any()` true). -/
def CropSafe (img : Image) : Prop :=
  (auto_crop_whitespace img).2.left < (auto_crop_whitespace img).2.right ∧
  (auto_crop_whitespace img).2.right ≤ img.width ∧
  (auto_crop_whitespace img).2.top < (auto_crop_whitespace img).2.bottom ∧
  (auto_crop_whitespace img).2.bottom ≤ img.height ∧
  (auto_crop_whitespace img).1.width =
    (auto_crop_whitespace img).2.right - (auto_crop_whitespace img).2.left ∧
  (auto_crop_whitespace img).1.height =
    (auto_crop_whitespace img).2.bottom - (auto_crop_whitespace img).2.top ∧
  0 < (auto_crop_whitespace img).1.width ∧
  0 < (auto_crop_whitespace img).1.height ∧
  (maskAny img = true →
    (firstIdx (rowHasContent img) img.height).isSome ∧
    (lastIdx (rowHasContent img) img.height).isSome ∧
    (firstIdx (colHasContent img) img.width).isSome ∧
    (lastIdx (colHasContent img) img.width).isSome)

/-- The blank-image normalization contract of claim C9 as amended: a
blank image (no channel below the threshold) is returned unchanged with
the full-extent crop box; when the blank image is moreover entirely
background-colored, the normalized output is a target-square canvas
entirely in the background color. -/
def BlankNormalization (img : Image) : Prop :=
  (Blank img →
    auto_crop_whitespace img = (img, ⟨0, 0, img.width, img.height⟩)) ∧
  (AllPad img →
    ∃ out res, preprocess_single (ImgBytes.valid img) = some (out, res) ∧
      out.width = TARGET_SIZE ∧ out.height = TARGET_SIZE ∧ AllPad out)

/-! ### Rounding lemmas for the letterbox scale -/

theorem natRoundHalfEven_mul_self (t n : Nat) (hn : 0 < n) :
    natRoundHalfEven (n * t) n = t := by
  unfold natRoundHalfEven
  have h1 : n * t % n = 0 := Nat.mul_mod_right n t
  have h2 : n * t / n = t := Nat.mul_div_cancel_left t hn
  simp [h1, h2, hn]

theorem natRoundHalfEven_err (a b : Nat) (hb : 0 < b) :
    2 * ((natRoundHalfEven a b : ℤ) * b - a) ≤ b ∧
      -(b : ℤ) ≤ 2 * ((natRoundHalfEven a b : ℤ) * b - a) := by
  have hmod : b * (a / b) + a % b = a := Nat.div_add_mod a b
  have hlt : a % b < b := Nat.mod_lt a hb
  have hcast : (b : ℤ) * ((a / b : Nat) : ℤ) + ((a % b : Nat) : ℤ) = a := by
    exact_mod_cast hmod
  have hq : ((a / b : Nat) : ℤ) * b - a = -((a % b : Nat) : ℤ) := by
    rw [← hcast]; ring
  have hq1 : (((a / b : Nat) : ℤ) + 1) * b - a = (b : ℤ) - ((a % b : Nat) : ℤ) := by
    rw [← hcast]; ring
  have hltZ : ((a % b : Nat) : ℤ) < b := by exact_mod_cast hlt
  have hge : (0 : ℤ) ≤ ((a % b : Nat) : ℤ) := Int.ofNat_nonneg _
  unfold natRoundHalfEven
  split_ifs with h1 h2 h3
  · have h1Z : 2 * ((a % b : Nat) : ℤ) < b := by exact_mod_cast h1
    rw [hq]
    constructor <;> linarith
  · have h2Z : (b : ℤ) < 2 * ((a % b : Nat) : ℤ) := by exact_mod_cast h2
    rw [Nat.cast_add, Nat.cast_one, hq1]
    constructor <;> linarith
  · have htie : 2 * (a % b) = b := le_antisymm (not_lt.mp h2) (not_lt.mp h1)
    have htieZ : 2 * ((a % b : Nat) : ℤ) = b := by exact_mod_cast htie
    rw [hq]
    constructor <;> linarith
  · have htie : 2 * (a % b) = b := le_antisymm (not_lt.mp h2) (not_lt.mp h1)
    have htieZ : 2 * ((a % b : Nat) : ℤ) = b := by exact_mod_cast htie
    rw [Nat.cast_add, Nat.cast_one, hq1]
    constructor <;> linarith

theorem natRoundHalfEven_le (a b c : Nat) (hb : 0 < b) (h : a ≤ b * c) :
    natRoundHalfEven a b ≤ c := by
  have hmod : b * (a / b) + a % b = a := Nat.div_add_mod a b
  have hq : a / b ≤ c := by
    have h1 : a / b ≤ b * c / b := Nat.div_le_div_right h
    rwa [Nat.mul_div_cancel_left c hb] at h1
  have hstep : 1 ≤ a % b → a / b + 1 ≤ c := by
    intro hr1
    have hba : b * (a / b) + 1 ≤ b * c := by
      calc b * (a / b) + 1 ≤ b * (a / b) + a % b := Nat.add_le_add_left hr1 _
        _ = a := hmod
        _ ≤ b * c := h
    exact Nat.lt_of_mul_lt_mul_left (Nat.lt_of_succ_le hba)
  have hpos : b ≤ 2 * (a % b) → 1 ≤ a % b := by
    intro hbig
    rcases Nat.eq_zero_or_pos (a % b) with h0 | h0
    · rw [h0] at hbig; omega
    · exact h0
  unfold natRoundHalfEven
  split_ifs with h1 h2 h3
  · exact hq
  · exact hstep (hpos (le_of_lt h2))
  · exact hq
  · exact hstep (hpos (not_lt.mp h1))

/-- `letterbox_resize` puts the longer side exactly at the target. -/
theorem letterbox_resized_max (img : Image) (hw : 0 < img.width)
    (hh : 0 < img.height) :
    max (letterbox_resize img TARGET_SIZE).2.resized_w
        (letterbox_resize img TARGET_SIZE).2.resized_h = TARGET_SIZE := by
  simp only [letterbox_resize]
  rcases Nat.le_total img.width img.height with hle | hle
  · rw [Nat.max_eq_right hle, natRoundHalfEven_mul_self TARGET_SIZE img.height hh]
    have hle2 : natRoundHalfEven (img.width * TARGET_SIZE) img.height ≤ TARGET_SIZE :=
      natRoundHalfEven_le _ _ _ hh (Nat.mul_le_mul_right _ hle)
    exact Nat.max_eq_right hle2
  · rw [Nat.max_eq_left hle, natRoundHalfEven_mul_self TARGET_SIZE img.width hw]
    have hle2 : natRoundHalfEven (img.height * TARGET_SIZE) img.width ≤ TARGET_SIZE :=
      natRoundHalfEven_le _ _ _ hw (Nat.mul_le_mul_right _ hle)
    exact Nat.max_eq_left hle2

/-- The rounded sides cross-multiply against the input sides within the
half-unit rounding bound: the recoverable aspect ratio matches the
input's up to rounding. -/
theorem letterbox_aspect_bound (img : Image) (hw : 0 < img.width)
    (hh : 0 < img.height) :
    2 * |((letterbox_resize img TARGET_SIZE).2.resized_w : ℤ) * img.height -
          ((letterbox_resize img TARGET_SIZE).2.resized_h : ℤ) * img.width|
      ≤ (img.width : ℤ) + img.height := by
  simp only [letterbox_resize]
  set w := img.width with hwdef
  set h := img.height with hhdef
  set m := max w h with hmdef
  have hm : 0 < m := lt_of_lt_of_le hw (Nat.le_max_left w h)
  set nw := natRoundHalfEven (w * TARGET_SIZE) m with hnw
  set nh := natRoundHalfEven (h * TARGET_SIZE) m with hnh
  have e1 := natRoundHalfEven_err (w * TARGET_SIZE) m hm
  have e2 := natRoundHalfEven_err (h * TARGET_SIZE) m hm
  rw [← hnw] at e1
  rw [← hnh] at e2
  push_cast at e1 e2
  set A : ℤ := (nw : ℤ) * m - (w : ℤ) * TARGET_SIZE with hA
  set B : ℤ := (nh : ℤ) * m - (h : ℤ) * TARGET_SIZE with hB
  have key : ((nw : ℤ) * h - (nh : ℤ) * w) * m = A * h - B * w := by
    rw [hA, hB]; ring
  have bA : 2 * |A| ≤ (m : ℤ) := by
    rcases abs_cases A with ⟨hc, _⟩ | ⟨hc, _⟩ <;> rw [hc] <;> linarith [e1.1, e1.2]
  have bB : 2 * |B| ≤ (m : ℤ) := by
    rcases abs_cases B with ⟨hc, _⟩ | ⟨hc, _⟩ <;> rw [hc] <;> linarith [e2.1, e2.2]
  have hmZ : (0 : ℤ) < m := by exact_mod_cast hm
  have main : (2 * |(nw : ℤ) * h - (nh : ℤ) * w|) * m ≤ ((w : ℤ) + h) * m := by
    have step1 : (2 * |(nw : ℤ) * h - (nh : ℤ) * w|) * m = 2 * |A * h - B * w| := by
      calc (2 * |(nw : ℤ) * h - (nh : ℤ) * w|) * m
          = 2 * (|(nw : ℤ) * h - (nh : ℤ) * w| * |(m : ℤ)|) := by
            rw [abs_of_nonneg (le_of_lt hmZ)]; ring
        _ = 2 * |((nw : ℤ) * h - (nh : ℤ) * w) * m| := by rw [abs_mul]
        _ = 2 * |A * h - B * w| := by rw [key]
    have hAh : |A * h| = |A| * h := by
      rw [abs_mul, abs_of_nonneg (by positivity : (0 : ℤ) ≤ (h : ℤ))]
    have hBw : |B * w| = |B| * w := by
      rw [abs_mul, abs_of_nonneg (by positivity : (0 : ℤ) ≤ (w : ℤ))]
    have tri2 : |A * h - B * w| ≤ |A| * h + |B| * w := by
      have hrw : A * h - B * w = A * h + -(B * w) := by ring
      rw [hrw]
      calc |A * h + -(B * w)| ≤ |A * h| + |-(B * w)| := abs_add _ _
        _ = |A| * h + |B| * w := by rw [abs_neg, hAh, hBw]
    have step3 : 2 * (|A| * h + |B| * w) ≤ ((w : ℤ) + h) * m := by
      have hb1 : (2 * |A|) * h ≤ (m : ℤ) * h :=
        mul_le_mul_of_nonneg_right bA (by positivity)
      have hb2 : (2 * |B|) * w ≤ (m : ℤ) * w :=
        mul_le_mul_of_nonneg_right bB (by positivity)
      calc 2 * (|A| * h + |B| * w) = (2 * |A|) * h + (2 * |B|) * w := by ring
        _ ≤ (m : ℤ) * h + (m : ℤ) * w := add_le_add hb1 hb2
        _ = ((w : ℤ) + h) * m := by ring
    calc (2 * |(nw : ℤ) * h - (nh : ℤ) * w|) * m = 2 * |A * h - B * w| := step1
      _ ≤ 2 * (|A| * h + |B| * w) := by linarith [tri2]
      _ ≤ ((w : ℤ) + h) * m := step3
  exact le_of_mul_le_mul_right main hmZ

/-! ### Auto-crop lemmas -/

/-- In a strictly increasing list the last element bounds every member. -/
theorem pairwise_lt_getLast_max (l : List Nat) (hl : l.Pairwise (· < ·))
    (a : Nat) (ha : l.getLast? = some a) : ∀ b ∈ l, b ≤ a := by
  induction l with
  | nil => simp at ha
  | cons x xs ih =>
    intro b hb
    cases xs with
    | nil =>
      simp at ha hb
      omega
    | cons y ys =>
      rw [List.getLast?_cons_cons] at ha
      rcases List.mem_cons.mp hb with rfl | hb2
      · have hmem : a ∈ y :: ys := List.mem_of_getLast?_eq_some ha
        exact le_of_lt (List.rel_of_pairwise_cons hl hmem)
      · exact ih (List.Pairwise.of_cons hl) ha b hb2

/-- When the mask is nonempty, all four `np.where` index extractions
succeed and the extremes are ordered and in bounds. -/
theorem auto_crop_indices (img : Image) (hm : maskAny img = true) :
    ∃ rmin0 rmax0 cmin0 cmax0,
      firstIdx (rowHasContent img) img.height = some rmin0 ∧
      lastIdx (rowHasContent img) img.height = some rmax0 ∧
      firstIdx (colHasContent img) img.width = some cmin0 ∧
      lastIdx (colHasContent img) img.width = some cmax0 ∧
      rmin0 ≤ rmax0 ∧ rmax0 < img.height ∧ cmin0 ≤ cmax0 ∧ cmax0 < img.width := by
  obtain ⟨y, hy, hrow⟩ := List.any_eq_true.mp hm
  obtain ⟨x, hx, hmask⟩ := List.any_eq_true.mp hrow
  have hcol : colHasContent img x = true := by
    unfold colHasContent
    exact List.any_eq_true.mpr ⟨y, hy, hmask⟩
  have hrowsome : (firstIdx (rowHasContent img) img.height).isSome := by
    unfold firstIdx
    exact List.find?_isSome.mpr ⟨y, hy, hrow⟩
  have hcolsome : (firstIdx (colHasContent img) img.width).isSome := by
    unfold firstIdx
    exact List.find?_isSome.mpr ⟨x, hx, hcol⟩
  obtain ⟨rmin0, hr0⟩ := Option.isSome_iff_exists.mp hrowsome
  obtain ⟨cmin0, hc0⟩ := Option.isSome_iff_exists.mp hcolsome
  have hyfilter : y ∈ (List.range img.height).filter (rowHasContent img) :=
    List.mem_filter.mpr ⟨hy, hrow⟩
  have hxfilter : x ∈ (List.range img.width).filter (colHasContent img) :=
    List.mem_filter.mpr ⟨hx, hcol⟩
  have hrlast : ((List.range img.height).filter (rowHasContent img)).getLast?.isSome :=
    List.getLast?_isSome.mpr (List.ne_nil_of_mem hyfilter)
  have hclast : ((List.range img.width).filter (colHasContent img)).getLast?.isSome :=
    List.getLast?_isSome.mpr (List.ne_nil_of_mem hxfilter)
  obtain ⟨rmax0, hr1⟩ := Option.isSome_iff_exists.mp hrlast
  obtain ⟨cmax0, hc1⟩ := Option.isSome_iff_exists.mp hclast
  have hrowpair : ((List.range img.height).filter (rowHasContent img)).Pairwise (· < ·) :=
    (List.pairwise_lt_range img.height).sublist (List.filter_sublist _)
  have hcolpair : ((List.range img.width).filter (colHasContent img)).Pairwise (· < ·) :=
    (List.pairwise_lt_range img.width).sublist (List.filter_sublist _)
  have hrminfilter : rmin0 ∈ (List.range img.height).filter (rowHasContent img) :=
    List.mem_filter.mpr ⟨List.mem_of_find?_eq_some hr0, List.find?_some hr0⟩
  have hcminfilter : cmin0 ∈ (List.range img.width).filter (colHasContent img) :=
    List.mem_filter.mpr ⟨List.mem_of_find?_eq_some hc0, List.find?_some hc0⟩
  have hrle : rmin0 ≤ rmax0 :=
    pairwise_lt_getLast_max _ hrowpair rmax0 hr1 rmin0 hrminfilter
  have hcle : cmin0 ≤ cmax0 :=
    pairwise_lt_getLast_max _ hcolpair cmax0 hc1 cmin0 hcminfilter
  have hrmem : rmax0 ∈ (List.range img.height).filter (rowHasContent img) :=
    List.mem_of_getLast?_eq_some hr1
  have hcmem : cmax0 ∈ (List.range img.width).filter (colHasContent img) :=
    List.mem_of_getLast?_eq_some hc1
  have hrlt : rmax0 < img.height :=
    List.mem_range.mp (List.mem_filter.mp hrmem).1
  have hclt : cmax0 < img.width :=
    List.mem_range.mp (List.mem_filter.mp hcmem).1
  exact ⟨rmin0, rmax0, cmin0, cmax0, hr0, hr1, hc0, hc1, hrle, hrlt, hcle, hclt⟩

/-- A blank image has an empty mask. -/
theorem blank_maskAny (img : Image) (hb : Blank img) : maskAny img = false := by
  unfold maskAny rowHasContent
  simp only [List.any_eq_false, Bool.not_eq_true, List.mem_range]
  intro y hy x hx
  exact hb x y hx hy

/-- An entirely background-colored image is blank for the threshold. -/
theorem allPad_blank (img : Image) (hp : AllPad img) : Blank img := by
  intro x y hx hy
  unfold maskAt
  rw [hp x y hx hy]
  decide

/-- The letterbox canvas of an entirely background-colored image is
entirely background-colored. -/
theorem letterbox_allpad (img : Image) (hw : 0 < img.width)
    (hh : 0 < img.height) (hp : AllPad img) :
    AllPad (letterbox_resize img TARGET_SIZE).1 := by
  intro x y hx hy
  simp only [letterbox_resize, resizeImage]
  split_ifs with hcond
  · obtain ⟨h1, h2, h3, h4⟩ := hcond
    set nw := natRoundHalfEven (img.width * TARGET_SIZE) (max img.width img.height) with hnw
    set nh := natRoundHalfEven (img.height * TARGET_SIZE) (max img.width img.height) with hnh
    clear_value nw nh
    have hnwpos : 0 < nw := by omega
    have hnhpos : 0 < nh := by omega
    have hxlt : x - (TARGET_SIZE - nw) / 2 < nw := by omega
    have hylt : y - (TARGET_SIZE - nh) / 2 < nh := by omega
    have hxw : (x - (TARGET_SIZE - nw) / 2) * img.width / nw < img.width := by
      rw [Nat.div_lt_iff_lt_mul hnwpos]
      calc (x - (TARGET_SIZE - nw) / 2) * img.width
          < nw * img.width := mul_lt_mul_of_pos_right hxlt hw
        _ = img.width * nw := Nat.mul_comm _ _
    have hyh : (y - (TARGET_SIZE - nh) / 2) * img.height / nh < img.height := by
      rw [Nat.div_lt_iff_lt_mul hnhpos]
      calc (y - (TARGET_SIZE - nh) / 2) * img.height
          < nh * img.height := mul_lt_mul_of_pos_right hylt hh
        _ = img.height * nh := Nat.mul_comm _ _
    exact hp _ _ hxw hyh
  · rfl

/-! ### Claim C4 -/

/-- C4 (confirmed): for every image with positive dimensions handed to
the letterbox step, `max(resized_w, resized_h) = TARGET_SIZE = 512`,
the canvas is exactly `TARGET_SIZE × TARGET_SIZE`, and the resized
sides reproduce the input aspect ratio within rounding tolerance
(cross-multiplied bound `2·|resized_w·h − resized_h·w| ≤ w + h`, the
exact consequence of half-unit rounding; no anisotropic stretch). -/
theorem C4_letterbox_geometry (img : Image) (hw : 0 < img.width)
    (hh : 0 < img.height) : LetterboxGeometry img := by
  refine ⟨letterbox_resized_max img hw hh, rfl, rfl,
    letterbox_aspect_bound img hw hh⟩

/-- Witness for C4 at the concrete 2×1 image with one black pixel. -/
theorem C4_letterbox_geometry_witness :
    0 < dotImg.width ∧ 0 < dotImg.height ∧ LetterboxGeometry dotImg :=
  ⟨by decide, by decide, C4_letterbox_geometry dotImg (by decide) (by decide)⟩

/-! ### Claim C10 -/

/-- C10 (confirmed): for every decoded image with positive dimensions,
the auto-crop box satisfies `0 ≤ left < right ≤ width` and
`0 ≤ top < bottom ≤ height`, the cropped image has the box's positive
extent (a zero-area crop is unreachable), and the `np.where` index
accesses are defined whenever the non-blank branch executes them. -/
theorem C10_auto_crop_safe (img : Image) (hw : 0 < img.width)
    (hh : 0 < img.height) : CropSafe img := by
  by_cases hm : maskAny img = true
  · obtain ⟨rmin0, rmax0, cmin0, cmax0, hr0, hr1, hc0, hc1, hrle, hrlt, hcle, hclt⟩ :=
      auto_crop_indices img hm
    have hout : auto_crop_whitespace img =
        (cropImage img
          ⟨cmin0 - WHITESPACE_CROP_MIN_BORDER, rmin0 - WHITESPACE_CROP_MIN_BORDER,
           min (img.width - 1) (cmax0 + WHITESPACE_CROP_MIN_BORDER) + 1,
           min (img.height - 1) (rmax0 + WHITESPACE_CROP_MIN_BORDER) + 1⟩,
         ⟨cmin0 - WHITESPACE_CROP_MIN_BORDER, rmin0 - WHITESPACE_CROP_MIN_BORDER,
          min (img.width - 1) (cmax0 + WHITESPACE_CROP_MIN_BORDER) + 1,
          min (img.height - 1) (rmax0 + WHITESPACE_CROP_MIN_BORDER) + 1⟩) := by
      unfold auto_crop_whitespace
      rw [if_pos hm, hr0, hr1, hc0, hc1]
    unfold CropSafe
    rw [hout]
    unfold cropImage WHITESPACE_CROP_MIN_BORDER
    refine ⟨by simp; omega, by simp; omega, by simp; omega, by simp; omega,
      rfl, rfl, by simp; omega, by simp; omega, ?_⟩
    intro _
    exact ⟨hr0 ▸ rfl, hr1 ▸ rfl, hc0 ▸ rfl, hc1 ▸ rfl⟩
  · have hmf : maskAny img = false := by
      cases hval : maskAny img
      · rfl
      · exact absurd hval hm
    have hout : auto_crop_whitespace img = (img, ⟨0, 0, img.width, img.height⟩) := by
      unfold auto_crop_whitespace
      rw [if_neg (by simp [hmf])]
    unfold CropSafe
    rw [hout]
    refine ⟨by simpa using hw, by simp, by simpa using hh, by simp,
      by simp, by simp, hw, hh, ?_⟩
    intro hcontra
    rw [hmf] at hcontra
    cases hcontra

/-- Witness for C10 at the concrete 2×1 image with one black pixel
(non-blank branch) — the hypotheses are discharged at `dotImg`. -/
theorem C10_auto_crop_safe_witness :
    0 < dotImg.width ∧ 0 < dotImg.height ∧ CropSafe dotImg :=
  ⟨by decide, by decide, C10_auto_crop_safe dotImg (by decide) (by decide)⟩

/-! ### Claim C9 -/

/-- C9 as amended (corrected): a blank image (no channel below the
threshold) is returned by the auto-crop unchanged, with crop box equal
to the full extent; and when the blank image is moreover entirely
background-colored (as in the spec's 1×1 transparent-pixel scenario),
the normalized output is a `TARGET_SIZE × TARGET_SIZE` canvas entirely
in the background color.  (As stated the claim is false: a blank image
may hold near-white non-background pixels, which survive into the
output — see the counterexample.) -/
theorem C9_blank_normalization (img : Image) (hw : 0 < img.width)
    (hh : 0 < img.height) : BlankNormalization img := by
  constructor
  · intro hb
    unfold auto_crop_whitespace
    rw [if_neg (by simp [blank_maskAny img hb])]
  · intro hp
    have hb : Blank img := allPad_blank img hp
    have hcrop : auto_crop_whitespace img = (img, ⟨0, 0, img.width, img.height⟩) := by
      unfold auto_crop_whitespace
      rw [if_neg (by simp [blank_maskAny img hb])]
    refine ⟨(letterbox_resize img TARGET_SIZE).1,
      ⟨img.width, img.height,
        ⟨⟨0, 0, img.width, img.height⟩,
         (letterbox_resize img TARGET_SIZE).2.offset_x,
         (letterbox_resize img TARGET_SIZE).2.offset_y,
         (letterbox_resize img TARGET_SIZE).2.resized_w,
         (letterbox_resize img TARGET_SIZE).2.resized_h, TARGET_SIZE⟩⟩, ?_, rfl, rfl,
      letterbox_allpad img hw hh hp⟩
    simp only [preprocess_single]
    rw [hcrop]

/-- Witness for C9 (amended) at the 1×1 background-colored image. -/
theorem C9_blank_normalization_witness :
    0 < whiteImg.width ∧ 0 < whiteImg.height ∧ BlankNormalization whiteImg :=
  ⟨by decide, by decide, C9_blank_normalization whiteImg (by decide) (by decide)⟩

/-- C9 counterexample: the 1×1 constant-(250,250,250) image is blank
(every channel is ≥ the threshold 245), the crop box is the full 1×1
extent, yet the normalized output is not entirely the background
color — pixel (0,0) of the canvas keeps the value (250,250,250). -/
theorem C9_blank_counterexample :
    Blank nearWhiteImg ∧
    (auto_crop_whitespace nearWhiteImg).2 = ⟨0, 0, 1, 1⟩ ∧
    ((letterbox_resize nearWhiteImg TARGET_SIZE).1).pix 0 0 = ⟨250, 250, 250⟩ ∧
    ((letterbox_resize nearWhiteImg TARGET_SIZE).1).pix 0 0 ≠ PAD_COLOR := by
  refine ⟨by decide, by decide, by decide, by decide⟩

/-! ### Store lemmas -/

theorem store_get_put_lt (s : Store) (b : ImgBytes) (k : Nat) (h : k < s.next) :
    ((s.put b).2).get k = s.get k := by
  have hne : (k == s.next) = false := beq_eq_false_iff_ne.mpr (Nat.ne_of_lt h)
  simp [Store.put, Store.get, List.lookup, hne]

theorem store_next_put (s : Store) (b : ImgBytes) :
    ((s.put b).2).next = s.next + 1 := rfl

theorem keyOk_put (s : Store) (b : ImgBytes) (k : Nat) (h : k < s.next) :
    keyOk ((s.put b).2) k ↔ keyOk s k := by
  unfold keyOk
  rw [store_get_put_lt s b k h]

/-! ### Step shape lemmas -/

theorem preprocessKeyStep_missing (st : PreState) (k : Nat)
    (h : st.store.get k = none) :
    preprocessKeyStep st k = { st with skipped := st.skipped + 1 } := by
  unfold preprocessKeyStep
  rw [h]

theorem preprocessKeyStep_corrupt (st : PreState) (k : Nat) (b : ImgBytes)
    (h : st.store.get k = some b) (h2 : preprocess_single b = none) :
    preprocessKeyStep st k =
      { st with skipped := st.skipped + 1, trace := st.trace ++ [k] } := by
  unfold preprocessKeyStep
  rw [h]
  dsimp only
  rw [h2]

theorem preprocessKeyStep_ok (st : PreState) (k : Nat) (b : ImgBytes)
    (out : Image) (res : PreResult)
    (h : st.store.get k = some b) (h2 : preprocess_single b = some (out, res)) :
    preprocessKeyStep st k =
      { table := st.table.map (preUpd k st.store.next res),
        store := (st.store.put (ImgBytes.valid out)).2,
        processed := st.processed + 1,
        rows_updated := st.rows_updated + (st.table.filter (preHit k)).length,
        skipped := st.skipped,
        trace := st.trace ++ [k] } := by
  unfold preprocessKeyStep
  rw [h]
  dsimp only
  rw [h2]
  rfl

theorem attackKeyStep_missing (st : AttackState) (k : Nat)
    (h : st.store.get k = none) : attackKeyStep st k = .error "KeyError" := by
  unfold attackKeyStep
  rw [h]

theorem attackKeyStep_ok (st : AttackState) (k : Nat) (b : ImgBytes)
    (h : st.store.get k = some b) :
    attackKeyStep st k =
      .ok { table := st.table.map (attackUpd k st.store.next),
            store := (st.store.put b).2,
            attacked := st.attacked + 1,
            rows_updated := st.rows_updated + (st.table.filter (attackHit k)).length,
            trace := st.trace ++ [k],
            written_ids := st.written_ids ++
              (st.table.filter (attackHit k)).map (fun s => s.id) } := by
  unfold attackKeyStep
  rw [h]
  rfl

theorem attackRun_cons_ok (k : Nat) (ks : List Nat) (st stX : AttackState)
    (h : attackKeyStep st k = .ok stX) :
    attackRun (k :: ks) st = attackRun ks stX := by
  have hdef : attackRun (k :: ks) st =
      match attackKeyStep st k with
      | .ok st2 => attackRun ks st2
      | .error e => .error e := rfl
  rw [hdef, h]

theorem attackRun_cons_err (k : Nat) (ks : List Nat) (st : AttackState)
    (e : String) (h : attackKeyStep st k = .error e) :
    attackRun (k :: ks) st = .error e := by
  have hdef : attackRun (k :: ks) st =
      match attackKeyStep st k with
      | .ok st2 => attackRun ks st2
      | .error e2 => .error e2 := rfl
  rw [hdef, h]

theorem explainStep_null (st : ExplainState) (row : Sample)
    (h : row.good_graph = none) : explainStep st row = .error "null good_graph" := by
  unfold explainStep
  rw [h]

theorem explainStep_missing (st : ExplainState) (row : Sample) (g : Nat)
    (hg : row.good_graph = some g) (h : st.store.get g = none) :
    explainStep st row = .error "KeyError" := by
  unfold explainStep
  rw [hg]
  dsimp only
  rw [h]

theorem explainStep_ok (st : ExplainState) (row : Sample) (g : Nat) (b : ImgBytes)
    (hg : row.good_graph = some g) (h : st.store.get g = some b) :
    explainStep st row =
      .ok { table := st.table.map (explainUpd row.id
              ("[PLACEHOLDER] Description of chart " ++ toString g ++
                " for: " ++ row.question)),
            store := st.store,
            explained := st.explained + 1,
            written_ids := st.written_ids ++ [row.id] } := by
  unfold explainStep
  rw [hg]
  dsimp only
  rw [h]

theorem explainRun_cons_ok (r : Sample) (rs : List Sample) (st stX : ExplainState)
    (h : explainStep st r = .ok stX) :
    explainRun (r :: rs) st = explainRun rs stX := by
  have hdef : explainRun (r :: rs) st =
      match explainStep st r with
      | .ok st2 => explainRun rs st2
      | .error e => .error e := rfl
  rw [hdef, h]

theorem explainRun_cons_err (r : Sample) (rs : List Sample) (st : ExplainState)
    (e : String) (h : explainStep st r = .error e) :
    explainRun (r :: rs) st = .error e := by
  have hdef : explainRun (r :: rs) st =
      match explainStep st r with
      | .ok st2 => explainRun rs st2
      | .error e2 => .error e2 := rfl
  rw [hdef, h]

theorem evalStep_null (st : EvalState) (row : Sample)
    (h : row.adversarial_graph = none) :
    evalStep st row = .error "null adversarial_graph" := by
  unfold evalStep
  rw [h]

theorem evalStep_missing (st : EvalState) (row : Sample) (g : Nat)
    (hg : row.adversarial_graph = some g) (h : st.store.get g = none) :
    evalStep st row = .error "KeyError" := by
  unfold evalStep
  rw [hg]
  dsimp only
  rw [h]

theorem evalStep_ok (st : EvalState) (row : Sample) (g : Nat) (b : ImgBytes)
    (hg : row.adversarial_graph = some g) (h : st.store.get g = some b) :
    evalStep st row =
      .ok { table := st.table.map (evalUpd row.id row.good_answer
              (decide (strNormalize row.good_answer ≠ strNormalize row.good_answer))),
            store := st.store,
            evaluated := st.evaluated + 1,
            succeeded := st.succeeded +
              (if decide (strNormalize row.good_answer ≠ strNormalize row.good_answer)
                then 1 else 0),
            failed := st.failed +
              (if decide (strNormalize row.good_answer ≠ strNormalize row.good_answer)
                then 0 else 1),
            written_ids := st.written_ids ++ [row.id] } := by
  unfold evalStep
  rw [hg]
  dsimp only
  rw [h]

theorem evalRun_cons_ok (r : Sample) (rs : List Sample) (st stX : EvalState)
    (h : evalStep st r = .ok stX) : evalRun (r :: rs) st = evalRun rs stX := by
  have hdef : evalRun (r :: rs) st =
      match evalStep st r with
      | .ok st2 => evalRun rs st2
      | .error e => .error e := rfl
  rw [hdef, h]

theorem evalRun_cons_err (r : Sample) (rs : List Sample) (st : EvalState)
    (e : String) (h : evalStep st r = .error e) : evalRun (r :: rs) st = .error e := by
  have hdef : evalRun (r :: rs) st =
      match evalStep st r with
      | .ok st2 => evalRun rs st2
      | .error e2 => .error e2 := rfl
  rw [hdef, h]

/-! ### Write-once algebra -/

theorem writeOnce_refl (s : Sample) : WriteOnce s s :=
  ⟨rfl, rfl, rfl, rfl, fun _ => rfl, fun _ => rfl, fun _ => rfl, fun _ => rfl,
   fun _ => rfl, fun _ => rfl, fun _ => rfl, fun _ => rfl⟩

theorem writeOnce_trans (a b c : Sample) (h1 : WriteOnce a b) (h2 : WriteOnce b c) :
    WriteOnce a c := by
  obtain ⟨i1, q1, g1, r1, h1g, h1m, h1w, h1h, h1hid, h1adv, h1out, h1atk⟩ := h1
  obtain ⟨i2, q2, g2, r2, h2g, h2m, h2w, h2h, h2hid, h2adv, h2out, h2atk⟩ := h2
  refine ⟨i2.trans i1, q2.trans q1, g2.trans g1, r2.trans r1,
    ?_, ?_, ?_, ?_, ?_, ?_, ?_, ?_⟩
  · intro hne; rw [h2g (by rw [h1g hne]; exact hne), h1g hne]
  · intro hne; rw [h2m (by rw [h1m hne]; exact hne), h1m hne]
  · intro hne; rw [h2w (by rw [h1w hne]; exact hne), h1w hne]
  · intro hne; rw [h2h (by rw [h1h hne]; exact hne), h1h hne]
  · intro hne; rw [h2hid (by rw [h1hid hne]; exact hne), h1hid hne]
  · intro hne; rw [h2adv (by rw [h1adv hne]; exact hne), h1adv hne]
  · intro hne; rw [h2out (by rw [h1out hne]; exact hne), h1out hne]
  · intro hne; rw [h2atk (by rw [h1atk hne]; exact hne), h1atk hne]

theorem preUpd_writeonce (k u : Nat) (res : PreResult) (s : Sample)
    (hc : Coupled s) : WriteOnce s (preUpd k u res s) ∧ Coupled (preUpd k u res s) := by
  unfold preUpd
  split_ifs with h
  · obtain ⟨hraw, hgood⟩ := h
    obtain ⟨hm, hw, hh⟩ := hc.1 hgood
    refine ⟨⟨rfl, rfl, rfl, rfl, fun hne => absurd hgood hne, fun hne => absurd hm hne,
      fun hne => absurd hw hne, fun hne => absurd hh hne, fun _ => rfl, fun _ => rfl,
      fun _ => rfl, fun _ => rfl⟩, ?_⟩
    exact ⟨fun hcontra => Option.noConfusion hcontra, fun ho => hc.2 ho⟩
  · exact ⟨writeOnce_refl s, hc⟩

theorem attackUpd_writeonce (k u : Nat) (s : Sample) (hc : Coupled s) :
    WriteOnce s (attackUpd k u s) ∧ Coupled (attackUpd k u s) := by
  unfold attackUpd
  split_ifs with h
  · obtain ⟨hg, hadv⟩ := h
    exact ⟨⟨rfl, rfl, rfl, rfl, fun _ => rfl, fun _ => rfl, fun _ => rfl, fun _ => rfl,
      fun _ => rfl, fun hne => absurd hadv hne, fun _ => rfl, fun _ => rfl⟩, hc⟩
  · exact ⟨writeOnce_refl s, hc⟩

theorem explainUpd_writeonce (i : Nat) (d : String) (s0 s : Sample)
    (h1 : WriteOnce s0 s) (h2 : s0.id = i → s0.hidden_answer = none) :
    WriteOnce s0 (explainUpd i d s) := by
  unfold explainUpd
  split_ifs with h
  · have hid0 : s0.id = i := by rw [← h1.1]; exact h
    have hnone := h2 hid0
    obtain ⟨i1, q1, g1, r1, hg, hm, hw, hh, hhid, hadv, hout, hatk⟩ := h1
    exact ⟨i1, q1, g1, r1, hg, hm, hw, hh, fun hne => absurd hnone hne,
      hadv, hout, hatk⟩
  · exact h1

theorem explainUpd_coupled (i : Nat) (d : String) (s : Sample) (hc : Coupled s) :
    Coupled (explainUpd i d s) := by
  unfold explainUpd
  split_ifs with h
  · exact hc
  · exact hc

theorem evalUpd_writeonce (i : Nat) (o : String) (atk : Bool) (s0 s : Sample)
    (h1 : WriteOnce s0 s)
    (h2 : s0.id = i → s0.output_answer = none ∧ s0.attack_succeeded = none) :
    WriteOnce s0 (evalUpd i o atk s) := by
  unfold evalUpd
  split_ifs with h
  · have hid0 : s0.id = i := by rw [← h1.1]; exact h
    obtain ⟨hnone1, hnone2⟩ := h2 hid0
    obtain ⟨i1, q1, g1, r1, hg, hm, hw, hh, hhid, hadv, hout, hatk⟩ := h1
    exact ⟨i1, q1, g1, r1, hg, hm, hw, hh, hhid, hadv,
      fun hne => absurd hnone1 hne, fun hne => absurd hnone2 hne⟩
  · exact h1

theorem evalUpd_coupled (i : Nat) (o : String) (atk : Bool) (s : Sample)
    (hc : Coupled s) : Coupled (evalUpd i o atk s) := by
  unfold evalUpd
  split_ifs with h
  · exact ⟨fun h0 => hc.1 h0, fun ho => Option.noConfusion ho⟩
  · exact hc

/-! ### Table relation lemmas (claim C1 machinery) -/

theorem tblRel_refl (t : List Sample) (hc : ∀ s ∈ t, Coupled s) : TblRel t t := by
  refine ⟨rfl, ?_⟩
  intro i s0 s h0 h1
  rw [h0] at h1
  cases h1
  exact ⟨writeOnce_refl s0, hc s0 (List.get?_mem h0)⟩

theorem tblRel_map (t0 t : List Sample) (f : Sample → Sample) (h : TblRel t0 t)
    (hf : ∀ s, Coupled s → WriteOnce s (f s) ∧ Coupled (f s)) :
    TblRel t0 (t.map f) := by
  refine ⟨by rw [List.length_map]; exact h.1, ?_⟩
  intro i s0 s' h0 h1
  rw [List.get?_map] at h1
  rcases hx : t.get? i with _ | s
  · rw [hx] at h1
    cases h1
  · rw [hx] at h1
    simp only [Option.map_some'] at h1
    cases h1
    obtain ⟨hw, hcoup⟩ := h.2 i s0 s h0 hx
    obtain ⟨hwf, hcf⟩ := hf s hcoup
    exact ⟨writeOnce_trans _ _ _ hw hwf, hcf⟩

theorem tblRel_map_explain (t0 t : List Sample) (i : Nat) (d : String)
    (h : TblRel t0 t)
    (hid : ∀ j s0, t0.get? j = some s0 → s0.id = i → s0.hidden_answer = none) :
    TblRel t0 (t.map (explainUpd i d)) := by
  refine ⟨by rw [List.length_map]; exact h.1, ?_⟩
  intro j s0 s' h0 h1
  rw [List.get?_map] at h1
  rcases hx : t.get? j with _ | s
  · rw [hx] at h1
    cases h1
  · rw [hx] at h1
    simp only [Option.map_some'] at h1
    cases h1
    obtain ⟨hw, hcoup⟩ := h.2 j s0 s h0 hx
    exact ⟨explainUpd_writeonce i d s0 s hw (hid j s0 h0),
      explainUpd_coupled i d s hcoup⟩

theorem tblRel_map_eval (t0 t : List Sample) (i : Nat) (o : String) (atk : Bool)
    (h : TblRel t0 t)
    (hid : ∀ j s0, t0.get? j = some s0 → s0.id = i →
      s0.output_answer = none ∧ s0.attack_succeeded = none) :
    TblRel t0 (t.map (evalUpd i o atk)) := by
  refine ⟨by rw [List.length_map]; exact h.1, ?_⟩
  intro j s0 s' h0 h1
  rw [List.get?_map] at h1
  rcases hx : t.get? j with _ | s
  · rw [hx] at h1
    cases h1
  · rw [hx] at h1
    simp only [Option.map_some'] at h1
    cases h1
    obtain ⟨hw, hcoup⟩ := h.2 j s0 s h0 hx
    exact ⟨evalUpd_writeonce i o atk s0 s hw (hid j s0 h0),
      evalUpd_coupled i o atk s hcoup⟩

theorem preprocess_fold_tblRel (t0 : List Sample) :
    ∀ (keys : List Nat) (st : PreState), TblRel t0 st.table →
      TblRel t0 ((keys.foldl preprocessKeyStep st).table) := by
  intro keys
  induction keys with
  | nil => intro st h; simpa using h
  | cons k ks ih =>
    intro st h
    rw [List.foldl_cons]
    rcases hget : st.store.get k with _ | b
    · rw [preprocessKeyStep_missing st k hget]
      exact ih _ h
    · rcases hps : preprocess_single b with _ | pair
      · rw [preprocessKeyStep_corrupt st k b hget hps]
        exact ih _ h
      · obtain ⟨out, res⟩ := pair
        rw [preprocessKeyStep_ok st k b out res hget hps]
        exact ih _ (tblRel_map t0 st.table _ h
          (fun s hc => preUpd_writeonce k st.store.next res s hc))

theorem attackRun_tblRel (t0 : List Sample) (st' : AttackState) :
    ∀ (keys : List Nat) (st : AttackState), attackRun keys st = .ok st' →
      TblRel t0 st.table → TblRel t0 st'.table := by
  intro keys
  induction keys with
  | nil =>
    intro st hrun h
    cases hrun
    exact h
  | cons k ks ih =>
    intro st hrun h
    rcases hget : st.store.get k with _ | b
    · rw [attackRun_cons_err k ks st _ (attackKeyStep_missing st k hget)] at hrun
      exact Except.noConfusion hrun
    · rw [attackRun_cons_ok k ks st _ (attackKeyStep_ok st k b hget)] at hrun
      exact ih _ hrun (tblRel_map t0 st.table _ h
        (fun s hc => attackUpd_writeonce k st.store.next s hc))

theorem explainRun_tblRel (t0 : List Sample) (st' : ExplainState) :
    ∀ (rows : List Sample) (st : ExplainState), explainRun rows st = .ok st' →
      TblRel t0 st.table →
      (∀ r ∈ rows, ∀ j s0, t0.get? j = some s0 → s0.id = r.id →
        s0.hidden_answer = none) →
      TblRel t0 st'.table := by
  intro rows
  induction rows with
  | nil =>
    intro st hrun h _
    cases hrun
    exact h
  | cons r rs ih =>
    intro st hrun h hrows
    rcases hg : r.good_graph with _ | g
    · rw [explainRun_cons_err r rs st _ (explainStep_null st r hg)] at hrun
      exact Except.noConfusion hrun
    · rcases hb : st.store.get g with _ | b
      · rw [explainRun_cons_err r rs st _ (explainStep_missing st r g hg hb)] at hrun
        exact Except.noConfusion hrun
      · rw [explainRun_cons_ok r rs st _ (explainStep_ok st r g b hg hb)] at hrun
        exact ih _ hrun
          (tblRel_map_explain t0 st.table r.id _ h
            (fun j s0 h0 hid0 => hrows r (List.mem_cons_self r rs) j s0 h0 hid0))
          (fun r' hr' => hrows r' (List.mem_cons_of_mem r hr'))

theorem evalRun_tblRel (t0 : List Sample) (st' : EvalState) :
    ∀ (rows : List Sample) (st : EvalState), evalRun rows st = .ok st' →
      TblRel t0 st.table →
      (∀ r ∈ rows, ∀ j s0, t0.get? j = some s0 → s0.id = r.id →
        s0.output_answer = none ∧ s0.attack_succeeded = none) →
      TblRel t0 st'.table := by
  intro rows
  induction rows with
  | nil =>
    intro st hrun h _
    cases hrun
    exact h
  | cons r rs ih =>
    intro st hrun h hrows
    rcases hg : r.adversarial_graph with _ | g
    · rw [evalRun_cons_err r rs st _ (evalStep_null st r hg)] at hrun
      exact Except.noConfusion hrun
    · rcases hb : st.store.get g with _ | b
      · rw [evalRun_cons_err r rs st _ (evalStep_missing st r g hg hb)] at hrun
        exact Except.noConfusion hrun
      · rw [evalRun_cons_ok r rs st _ (evalStep_ok st r g b hg hb)] at hrun
        exact ih _ hrun
          (tblRel_map_eval t0 st.table r.id _ _ h
            (fun j s0 h0 hid0 => hrows r (List.mem_cons_self r rs) j s0 h0 hid0))
          (fun r' hr' => hrows r' (List.mem_cons_of_mem r hr'))

/-! ### Selection lemmas -/

theorem mem_explainRows (t : List Sample) (mr : Nat) (r : Sample)
    (hr : r ∈ explainRows t mr) :
    r ∈ t ∧ r.good_graph ≠ none ∧ r.hidden_answer = none := by
  simp only [explainRows] at hr
  have hr2 : r ∈ (t.filter fun s =>
      decide (s.good_graph ≠ none ∧ s.hidden_answer = none)).insertionSort idLe := by
    split_ifs at hr with hmr
    · exact List.take_subset mr _ hr
    · exact hr
  have hr3 := (List.perm_insertionSort idLe _).mem_iff.mp hr2
  obtain ⟨hmem, hpred⟩ := List.mem_filter.mp hr3
  exact ⟨hmem, of_decide_eq_true hpred⟩

theorem mem_evalRows (t : List Sample) (mr : Nat) (r : Sample)
    (hr : r ∈ evalRows t mr) :
    r ∈ t ∧ r.adversarial_graph ≠ none ∧ r.output_answer = none := by
  simp only [evalRows] at hr
  have hr2 : r ∈ (t.filter fun s =>
      decide (s.adversarial_graph ≠ none ∧ s.output_answer = none)).insertionSort idLe := by
    split_ifs at hr with hmr
    · exact List.take_subset mr _ hr
    · exact hr
  have hr3 := (List.perm_insertionSort idLe _).mem_iff.mp hr2
  obtain ⟨hmem, hpred⟩ := List.mem_filter.mp hr3
  exact ⟨hmem, of_decide_eq_true hpred⟩

theorem mem_preprocessKeys_of (t : List Sample) (s : Sample) (hs : s ∈ t)
    (hg : s.good_graph = none) : s.raw_graph ∈ preprocessKeys t := by
  unfold preprocessKeys
  exact List.mem_dedup.mpr
    (List.mem_map.mpr ⟨s, List.mem_filter.mpr ⟨hs, by simp [hg]⟩, rfl⟩)

theorem mem_attackKeys_of (t : List Sample) (g : Nat)
    (h : ∃ s ∈ t, s.good_graph = some g ∧ s.adversarial_graph = none) :
    g ∈ attackKeys t 0 := by
  obtain ⟨s, hs, hg, hadv⟩ := h
  simp only [attackKeys, lt_irrefl, if_false]
  exact (List.perm_insertionSort _ _).mem_iff.mpr
    (List.mem_dedup.mpr (List.mem_filterMap.mpr
      ⟨s, List.mem_filter.mpr ⟨hs, by simp [hg, hadv]⟩, hg⟩))

/-! ### Claim C1 -/

/-- C1 (confirmed): every stage run only ever sets columns that were
null when the run started; every already-set column keeps its value.
The `Coupled` hypothesis states the column coupling every
pipeline-produced table satisfies (preprocessing writes its four
columns together; evaluation writes its two columns together), and the
id-nodup hypothesis reflects the `SERIAL PRIMARY KEY`. -/
theorem C1_write_once (t : List Sample) (store : Store) (mr : Nat)
    (hc : ∀ s ∈ t, Coupled s) (hid : (t.map (fun s => s.id)).Nodup) :
    WriteOnceRun t store mr := by
  have hinj : ∀ x ∈ t, ∀ y ∈ t, x.id = y.id → x = y := by
    intro x hx y hy hxy
    exact List.inj_on_of_nodup_map hid hx hy hxy
  refine ⟨?_, ?_, ?_, ?_⟩
  · intro i s0 s1 h0 h1
    have := preprocess_fold_tblRel t (preprocessKeys t)
      ⟨t, store, 0, 0, 0, []⟩ (tblRel_refl t hc)
    exact (this.2 i s0 s1 h0 h1).1
  · intro st1 hrun i s0 s1 h0 h1
    have := attackRun_tblRel t st1 (attackKeys t mr)
      ⟨t, store, 0, 0, [], []⟩ hrun (tblRel_refl t hc)
    exact (this.2 i s0 s1 h0 h1).1
  · intro st1 hrun i s0 s1 h0 h1
    have := explainRun_tblRel t st1 (explainRows t mr)
      ⟨t, store, 0, []⟩ hrun (tblRel_refl t hc) ?_
    · exact (this.2 i s0 s1 h0 h1).1
    · intro r hr j s0j h0j hidj
      obtain ⟨hmem, hgood, hhid⟩ := mem_explainRows t mr r hr
      have hs0j : s0j ∈ t := List.get?_mem h0j
      have : s0j = r := hinj s0j hs0j r hmem hidj
      rw [this]
      exact hhid
  · intro st1 hrun i s0 s1 h0 h1
    have := evalRun_tblRel t st1 (evalRows t mr)
      ⟨t, store, 0, 0, 0, []⟩ hrun (tblRel_refl t hc) ?_
    · exact (this.2 i s0 s1 h0 h1).1
    · intro r hr j s0j h0j hidj
      obtain ⟨hmem, hadv, hout⟩ := mem_evalRows t mr r hr
      have hs0j : s0j ∈ t := List.get?_mem h0j
      have heq : s0j = r := hinj s0j hs0j r hmem hidj
      rw [heq]
      exact ⟨hout, (hc r hmem).2 hout⟩

/-- Witness for C1 at the concrete three-sample table on which every
stage has work to do. -/
theorem C1_write_once_witness :
    (∀ s ∈ wTable, Coupled s) ∧ (wTable.map (fun s => s.id)).Nodup ∧
      WriteOnceRun wTable wStore 0 :=
  ⟨by decide, by decide, C1_write_once wTable wStore 0 (by decide) (by decide)⟩

/-! ### Trace lemmas (claim C8 machinery) -/

theorem preprocess_fold_trace :
    ∀ (keys : List Nat) (st : PreState),
      ∃ tr, ((keys.foldl preprocessKeyStep st).trace = st.trace ++ tr ∧
        tr.Sublist keys) := by
  intro keys
  induction keys with
  | nil => intro st; exact ⟨[], by simp, List.nil_sublist _⟩
  | cons k ks ih =>
    intro st
    rw [List.foldl_cons]
    rcases hget : st.store.get k with _ | b
    · rw [preprocessKeyStep_missing st k hget]
      obtain ⟨tr, htr, hsub⟩ := ih _
      exact ⟨tr, htr, hsub.cons k⟩
    · rcases hps : preprocess_single b with _ | pair
      · rw [preprocessKeyStep_corrupt st k b hget hps]
        obtain ⟨tr, htr, hsub⟩ := ih _
        refine ⟨k :: tr, ?_, hsub.cons₂ k⟩
        rw [htr]
        simp
      · obtain ⟨out, res⟩ := pair
        rw [preprocessKeyStep_ok st k b out res hget hps]
        obtain ⟨tr, htr, hsub⟩ := ih _
        refine ⟨k :: tr, ?_, hsub.cons₂ k⟩
        rw [htr]
        simp

theorem attackRun_trace (st' : AttackState) :
    ∀ (keys : List Nat) (st : AttackState), attackRun keys st = .ok st' →
      ∃ tr, (st'.trace = st.trace ++ tr ∧ tr.Sublist keys) := by
  intro keys
  induction keys with
  | nil =>
    intro st hrun
    cases hrun
    exact ⟨[], by simp, List.nil_sublist _⟩
  | cons k ks ih =>
    intro st hrun
    rcases hget : st.store.get k with _ | b
    · rw [attackRun_cons_err k ks st _ (attackKeyStep_missing st k hget)] at hrun
      exact Except.noConfusion hrun
    · rw [attackRun_cons_ok k ks st _ (attackKeyStep_ok st k b hget)] at hrun
      obtain ⟨tr, htr, hsub⟩ := ih _ hrun
      refine ⟨k :: tr, ?_, hsub.cons₂ k⟩
      rw [htr]
      simp

theorem preprocessKeys_nodup (t : List Sample) : (preprocessKeys t).Nodup :=
  List.nodup_dedup _

theorem attackKeys_nodup (t : List Sample) (mr : Nat) : (attackKeys t mr).Nodup := by
  simp only [attackKeys]
  split_ifs
  · exact List.Nodup.sublist (List.take_sublist _ _)
      ((List.perm_insertionSort _ _).nodup_iff.mpr (List.nodup_dedup _))
  · exact (List.perm_insertionSort _ _).nodup_iff.mpr (List.nodup_dedup _)

/-! ### Claim C8 -/

/-- C8 (confirmed): within one preprocessing run and within one
perturbation run, the stage transform is invoked at most once per
distinct content key, however many samples share the key — the
per-run trace of transform invocations holds each key at most once. -/
theorem C8_transform_once (t : List Sample) (store : Store) (mr k : Nat) :
    TransformOnce t store mr k := by
  constructor
  · obtain ⟨tr, htr, hsub⟩ :=
      preprocess_fold_trace (preprocessKeys t) ⟨t, store, 0, 0, 0, []⟩
    unfold preprocess_all
    rw [htr]
    simp only [List.nil_append]
    calc tr.count k ≤ (preprocessKeys t).count k := hsub.count_le k
      _ ≤ 1 := List.nodup_iff_count_le_one.mp (preprocessKeys_nodup t) k
  · intro st1 hrun
    obtain ⟨tr, htr, hsub⟩ :=
      attackRun_trace st1 (attackKeys t mr) ⟨t, store, 0, 0, [], []⟩ hrun
    rw [htr]
    simp only [List.nil_append]
    calc tr.count k ≤ (attackKeys t mr).count k := hsub.count_le k
      _ ≤ 1 := List.nodup_iff_count_le_one.mp (attackKeys_nodup t mr) k

/-- Witness for C8 at the concrete table: key 5 is shared and its
transform runs at most once in each of the two keyed stages. -/
theorem C8_transform_once_witness :
    (preprocess_all wTable wStore).trace.count 5 ≤ 1 ∧
      wAttackRun.trace.count 5 ≤ 1 := by
  obtain ⟨h1, h2⟩ := C8_transform_once wTable wStore 0 5
  exact ⟨h1, h2 wAttackRun (by rfl)⟩

/-! ### Ordering lemmas (claim C7 machinery) -/

theorem explainRows_sorted (t : List Sample) (mr : Nat) :
    List.Sorted (· ≤ ·) ((explainRows t mr).map (fun s => s.id)) := by
  have hrows : List.Sorted idLe (explainRows t mr) := by
    simp only [explainRows]
    split_ifs
    · exact (List.sorted_insertionSort idLe _).sublist (List.take_sublist _ _)
    · exact List.sorted_insertionSort idLe _
  exact List.pairwise_map.mpr hrows

theorem evalRows_sorted (t : List Sample) (mr : Nat) :
    List.Sorted (· ≤ ·) ((evalRows t mr).map (fun s => s.id)) := by
  have hrows : List.Sorted idLe (evalRows t mr) := by
    simp only [evalRows]
    split_ifs
    · exact (List.sorted_insertionSort idLe _).sublist (List.take_sublist _ _)
    · exact List.sorted_insertionSort idLe _
  exact List.pairwise_map.mpr hrows

theorem attackKeys_sorted (t : List Sample) (mr : Nat) :
    List.Sorted (· ≤ ·) (attackKeys t mr) := by
  simp only [attackKeys]
  split_ifs
  · exact (List.sorted_insertionSort _ _).sublist (List.take_sublist _ _)
  · exact List.sorted_insertionSort _ _

theorem explainRows_take (t : List Sample) (mr : Nat) (h : 0 < mr) :
    explainRows t mr = (explainRows t 0).take mr := by
  simp only [explainRows]
  rw [if_pos h, if_neg (lt_irrefl 0)]

theorem evalRows_take (t : List Sample) (mr : Nat) (h : 0 < mr) :
    evalRows t mr = (evalRows t 0).take mr := by
  simp only [evalRows]
  rw [if_pos h, if_neg (lt_irrefl 0)]

theorem attackKeys_take (t : List Sample) (mr : Nat) (h : 0 < mr) :
    attackKeys t mr = (attackKeys t 0).take mr := by
  simp only [attackKeys]
  rw [if_pos h, if_neg (lt_irrefl 0)]

theorem explainRun_written (st' : ExplainState) :
    ∀ (rows : List Sample) (st : ExplainState), explainRun rows st = .ok st' →
      st'.written_ids = st.written_ids ++ rows.map (fun s => s.id) := by
  intro rows
  induction rows with
  | nil =>
    intro st hrun
    cases hrun
    simp
  | cons r rs ih =>
    intro st hrun
    rcases hg : r.good_graph with _ | g
    · rw [explainRun_cons_err r rs st _ (explainStep_null st r hg)] at hrun
      exact Except.noConfusion hrun
    · rcases hb : st.store.get g with _ | b
      · rw [explainRun_cons_err r rs st _ (explainStep_missing st r g hg hb)] at hrun
        exact Except.noConfusion hrun
      · rw [explainRun_cons_ok r rs st _ (explainStep_ok st r g b hg hb)] at hrun
        rw [ih _ hrun]
        simp

theorem evalRun_written (st' : EvalState) :
    ∀ (rows : List Sample) (st : EvalState), evalRun rows st = .ok st' →
      st'.written_ids = st.written_ids ++ rows.map (fun s => s.id) := by
  intro rows
  induction rows with
  | nil =>
    intro st hrun
    cases hrun
    simp
  | cons r rs ih =>
    intro st hrun
    rcases hg : r.adversarial_graph with _ | g
    · rw [evalRun_cons_err r rs st _ (evalStep_null st r hg)] at hrun
      exact Except.noConfusion hrun
    · rcases hb : st.store.get g with _ | b
      · rw [evalRun_cons_err r rs st _ (evalStep_missing st r g hg hb)] at hrun
        exact Except.noConfusion hrun
      · rw [evalRun_cons_ok r rs st _ (evalStep_ok st r g b hg hb)] at hrun
        rw [ih _ hrun]
        simp

/-! ### Claim C7 -/

/-- C7 as amended (corrected): the explanation and evaluation stages
select eligible rows ordered by id ascending, advance them in exactly
that order, and are resumable via the optional row-count limit; the
perturbation stage selects distinct `good_graph` keys ordered by key
value (not by sample id) with the limit applied to keys.  (As stated
the claim is false: the perturbation stage's ascending-key order can
advance samples in descending id order — see the counterexample — and
the preprocessing stage's `SELECT DISTINCT raw_graph` carries no ORDER
BY and `preprocess_all` accepts no row-count limit at all.) -/
theorem C7_ordered_advancement (t : List Sample) (store : Store) (mr : Nat) :
    OrderedAdvancement t store mr := by
  refine ⟨explainRows_sorted t mr, evalRows_sorted t mr, attackKeys_sorted t mr,
    ?_, ?_, ?_⟩
  · intro hmr
    exact ⟨explainRows_take t mr hmr, evalRows_take t mr hmr, attackKeys_take t mr hmr⟩
  · intro st1 hrun
    have := explainRun_written st1 (explainRows t mr) ⟨t, store, 0, []⟩ hrun
    simpa using this
  · intro st1 hrun
    have := evalRun_written st1 (evalRows t mr) ⟨t, store, 0, 0, 0, []⟩ hrun
    simpa using this

/-- Witness for C7 (amended) at the concrete table with limit 1: the
run orders exist and `explain_all`'s advancement follows the sorted
selection. -/
theorem C7_ordered_advancement_witness :
    OrderedAdvancement wTable wStore 1 ∧
      explain_all wTable wStore 1 = Except.ok wExplainRun1 ∧
      wExplainRun1.written_ids = (explainRows wTable 1).map (fun s => s.id) := by
  have h := C7_ordered_advancement wTable wStore 1
  exact ⟨h, by rfl, h.2.2.2.2.1 wExplainRun1 (by rfl)⟩

/-! ### Missing-blob lemmas (claim C6 machinery) -/

theorem preUpd_not_hit (k u : Nat) (res : PreResult) (s : Sample)
    (h : ¬(s.raw_graph = k ∧ s.good_graph = none)) : preUpd k u res s = s := by
  unfold preUpd
  rw [if_neg h]

theorem preUpd_hit (k u : Nat) (res : PreResult) (s : Sample)
    (h1 : s.raw_graph = k) (h2 : s.good_graph = none) :
    preUpd k u res s =
      { s with good_graph := some u, preprocess_meta := some res.meta,
               original_width := some res.original_width,
               original_height := some res.original_height } := by
  unfold preUpd
  rw [if_pos ⟨h1, h2⟩]

theorem attackUpd_not_hit (k u : Nat) (s : Sample)
    (h : ¬(s.good_graph = some k ∧ s.adversarial_graph = none)) :
    attackUpd k u s = s := by
  unfold attackUpd
  rw [if_neg h]

theorem preprocess_fold_missing_unchanged :
    ∀ (keys : List Nat) (st : PreState) (i : Nat) (s : Sample),
      st.table.get? i = some s → st.store.get s.raw_graph = none →
      s.raw_graph < st.store.next →
      (keys.foldl preprocessKeyStep st).table.get? i = some s := by
  intro keys
  induction keys with
  | nil => intro st i s hi _ _; simpa using hi
  | cons k ks ih =>
    intro st i s hi hmiss hlt
    rw [List.foldl_cons]
    rcases hget : st.store.get k with _ | b
    · rw [preprocessKeyStep_missing st k hget]
      exact ih _ i s hi hmiss hlt
    · rcases hps : preprocess_single b with _ | pair
      · rw [preprocessKeyStep_corrupt st k b hget hps]
        exact ih _ i s hi hmiss hlt
      · obtain ⟨out, res⟩ := pair
        rw [preprocessKeyStep_ok st k b out res hget hps]
        have hne : s.raw_graph ≠ k := by
          intro heq
          rw [heq, hget] at hmiss
          cases hmiss
        apply ih
        · rw [List.get?_map, hi]
          simp only [Option.map_some']
          rw [preUpd_not_hit _ _ _ _ (fun hcon => hne hcon.1)]
        · rw [store_get_put_lt st.store _ s.raw_graph hlt]
          exact hmiss
        · rw [store_next_put]
          omega

theorem attackRun_missing_aborts :
    ∀ (keys : List Nat) (st : AttackState) (g : Nat), g ∈ keys →
      st.store.get g = none → g < st.store.next →
      ∃ e, attackRun keys st = .error e := by
  intro keys
  induction keys with
  | nil => intro st g hg; cases hg
  | cons k ks ih =>
    intro st g hg hmiss hlt
    rcases hget : st.store.get k with _ | b
    · exact ⟨"KeyError", attackRun_cons_err k ks st _ (attackKeyStep_missing st k hget)⟩
    · have hne : g ≠ k := by
        intro heq
        rw [heq, hget] at hmiss
        cases hmiss
      have hg2 : g ∈ ks := by
        rcases List.mem_cons.mp hg with h | h
        · exact absurd h hne
        · exact h
      rw [attackRun_cons_ok k ks st _ (attackKeyStep_ok st k b hget)]
      apply ih _ g hg2
      · rw [store_get_put_lt st.store b g hlt]
        exact hmiss
      · rw [store_next_put]
        omega

theorem explainRun_missing_aborts :
    ∀ (rows : List Sample) (st : ExplainState),
      (∃ r ∈ rows, ∃ g, r.good_graph = some g ∧ st.store.get g = none) →
      ∃ e, explainRun rows st = .error e := by
  intro rows
  induction rows with
  | nil =>
    intro st h
    obtain ⟨r, hr, _⟩ := h
    cases hr
  | cons r0 rs ih =>
    intro st h
    rcases hg0 : r0.good_graph with _ | g0
    · exact ⟨_, explainRun_cons_err r0 rs st _ (explainStep_null st r0 hg0)⟩
    · rcases hb : st.store.get g0 with _ | b
      · exact ⟨_, explainRun_cons_err r0 rs st _ (explainStep_missing st r0 g0 hg0 hb)⟩
      · rw [explainRun_cons_ok r0 rs st _ (explainStep_ok st r0 g0 b hg0 hb)]
        apply ih
        obtain ⟨r, hr, g, hg, hmiss⟩ := h
        rcases List.mem_cons.mp hr with rfl | hr2
        · rw [hg0] at hg
          cases hg
          rw [hb] at hmiss
          cases hmiss
        · exact ⟨r, hr2, g, hg, hmiss⟩

theorem evalRun_missing_aborts :
    ∀ (rows : List Sample) (st : EvalState),
      (∃ r ∈ rows, ∃ g, r.adversarial_graph = some g ∧ st.store.get g = none) →
      ∃ e, evalRun rows st = .error e := by
  intro rows
  induction rows with
  | nil =>
    intro st h
    obtain ⟨r, hr, _⟩ := h
    cases hr
  | cons r0 rs ih =>
    intro st h
    rcases hg0 : r0.adversarial_graph with _ | g0
    · exact ⟨_, evalRun_cons_err r0 rs st _ (evalStep_null st r0 hg0)⟩
    · rcases hb : st.store.get g0 with _ | b
      · exact ⟨_, evalRun_cons_err r0 rs st _ (evalStep_missing st r0 g0 hg0 hb)⟩
      · rw [evalRun_cons_ok r0 rs st _ (evalStep_ok st r0 g0 b hg0 hb)]
        apply ih
        obtain ⟨r, hr, g, hg, hmiss⟩ := h
        rcases List.mem_cons.mp hr with rfl | hr2
        · rw [hg0] at hg
          cases hg
          rw [hb] at hmiss
          cases hmiss
        · exact ⟨r, hr2, g, hg, hmiss⟩

theorem mem_explainRows_of (t : List Sample) (r : Sample) (hr : r ∈ t)
    (hg : r.good_graph ≠ none) (hh : r.hidden_answer = none) :
    r ∈ explainRows t 0 := by
  simp only [explainRows, lt_irrefl, if_false]
  exact (List.perm_insertionSort idLe _).mem_iff.mpr
    (List.mem_filter.mpr ⟨hr, by simp [hg, hh]⟩)

theorem mem_evalRows_of (t : List Sample) (r : Sample) (hr : r ∈ t)
    (hg : r.adversarial_graph ≠ none) (hh : r.output_answer = none) :
    r ∈ evalRows t 0 := by
  simp only [evalRows, lt_irrefl, if_false]
  exact (List.perm_insertionSort idLe _).mem_iff.mpr
    (List.mem_filter.mpr ⟨hr, by simp [hg, hh]⟩)

/-! ### Skip-count lemma (claims C5 and C6 machinery) -/

theorem keyOk_missing (store : Store) (k : Nat) (h : store.get k = none) :
    ¬ keyOk store k := by
  unfold keyOk
  rw [h]
  exact fun hf => hf

theorem keyOk_corrupt (store : Store) (k : Nat) (b : ImgBytes)
    (h : store.get k = some b) (h2 : preprocess_single b = none) :
    ¬ keyOk store k := by
  unfold keyOk
  rw [h]
  dsimp only
  rw [h2]
  simp

theorem keyOk_some (store : Store) (k : Nat) (b : ImgBytes) (out : Image)
    (res : PreResult) (h : store.get k = some b)
    (h2 : preprocess_single b = some (out, res)) : keyOk store k := by
  unfold keyOk
  rw [h]
  dsimp only
  rw [h2]
  simp

theorem preprocess_fold_skipped :
    ∀ (keys : List Nat) (st : PreState),
      (∀ k ∈ keys, k < st.store.next) →
      (keys.foldl preprocessKeyStep st).skipped =
        st.skipped + (keys.filter (fun k => decide (¬ keyOk st.store k))).length := by
  intro keys
  induction keys with
  | nil => intro st _; simp
  | cons k ks ih =>
    intro st hlt
    rw [List.foldl_cons, List.filter_cons]
    rcases hget : st.store.get k with _ | b
    · have hko : ¬ keyOk st.store k := keyOk_missing st.store k hget
      have hrec := ih { st with skipped := st.skipped + 1 }
        (fun k' hk' => hlt k' (List.mem_cons_of_mem k hk'))
      rw [preprocessKeyStep_missing st k hget, hrec]
      simp [hko]
      omega
    · rcases hps : preprocess_single b with _ | pair
      · have hko : ¬ keyOk st.store k := keyOk_corrupt st.store k b hget hps
        have hrec := ih { st with skipped := st.skipped + 1, trace := st.trace ++ [k] }
          (fun k' hk' => hlt k' (List.mem_cons_of_mem k hk'))
        rw [preprocessKeyStep_corrupt st k b hget hps, hrec]
        simp [hko]
        omega
      · obtain ⟨out, res⟩ := pair
        have hko : keyOk st.store k := keyOk_some st.store k b out res hget hps
        have hlt2 : ∀ k' ∈ ks, k' <
            (({ table := st.table.map (preUpd k st.store.next res),
                store := (st.store.put (ImgBytes.valid out)).2,
                processed := st.processed + 1,
                rows_updated := st.rows_updated + (st.table.filter (preHit k)).length,
                skipped := st.skipped,
                trace := st.trace ++ [k] } : PreState)).store.next := by
          intro k' hk'
          rw [store_next_put]
          exact Nat.lt_succ_of_lt (hlt k' (List.mem_cons_of_mem k hk'))
        have hrec := ih _ hlt2
        rw [preprocessKeyStep_ok st k b out res hget hps, hrec]
        have hcongr : ks.filter
            (fun k' => decide (¬ keyOk ((st.store.put (ImgBytes.valid out)).2) k')) =
            ks.filter (fun k' => decide (¬ keyOk st.store k')) := by
          apply List.filter_congr
          intro k' hk'
          have hiff := keyOk_put st.store (ImgBytes.valid out) k'
            (hlt k' (List.mem_cons_of_mem k hk'))
          simp [hiff]
        rw [hcongr]
        simp [hko]

theorem preprocess_all_skipped (t : List Sample) (store : Store)
    (hrefs : RefsBelow t store.next) :
    (preprocess_all t store).skipped =
      ((preprocessKeys t).filter (fun k => decide (¬ keyOk store k))).length := by
  have hlt : ∀ k ∈ preprocessKeys t, k < store.next := by
    intro k hk
    unfold preprocessKeys at hk
    obtain ⟨s, hs, hraw⟩ := List.mem_map.mp (List.mem_dedup.mp hk)
    have := (hrefs s (List.mem_filter.mp hs).1).1
    rw [← hraw]
    exact this
  have h := preprocess_fold_skipped (preprocessKeys t) ⟨t, store, 0, 0, 0, []⟩ hlt
  simpa using h

/-! ### Claim C6 -/

/-- C6 as amended (corrected): only the preprocessing stage treats a
missing blob like invalid content — the key is counted as skipped, the
run completes, and the sample is untouched.  The perturbation,
explanation and evaluation stages call `get_image` with no try/except,
so a missing blob raises an uncaught `KeyError` that aborts the run.
(As stated — "every stage skips" — the claim is false, see the
counterexample.) -/
theorem C6_missing_blob (t : List Sample) (store : Store)
    (hrefs : RefsBelow t store.next) : MissingBlobBehavior t store := by
  refine ⟨?_, ?_, ?_, ?_⟩
  · intro i s hi hg hmiss
    constructor
    · unfold preprocess_all
      exact preprocess_fold_missing_unchanged (preprocessKeys t)
        ⟨t, store, 0, 0, 0, []⟩ i s hi hmiss (hrefs s (List.get?_mem hi)).1
    · rw [preprocess_all_skipped t store hrefs]
      have hkmem : s.raw_graph ∈ preprocessKeys t :=
        mem_preprocessKeys_of t s (List.get?_mem hi) hg
      have hko : ¬ keyOk store s.raw_graph := by
        unfold keyOk
        rw [hmiss]
        exact fun h => h
      have hmem2 : s.raw_graph ∈
          (preprocessKeys t).filter (fun k => decide (¬ keyOk store k)) :=
        List.mem_filter.mpr ⟨hkmem, by simp [hko]⟩
      have := List.length_pos.mpr (List.ne_nil_of_mem hmem2)
      omega
  · intro g hex hmiss
    have hmem : g ∈ attackKeys t 0 := mem_attackKeys_of t g hex
    have hlt : g < store.next := by
      obtain ⟨s, hs, hg2, _⟩ := hex
      have hopt := (hrefs s hs).2.1
      rw [hg2] at hopt
      exact hopt
    unfold attack_all
    exact attackRun_missing_aborts (attackKeys t 0) ⟨t, store, 0, 0, [], []⟩ g
      hmem hmiss hlt
  · intro r hr g hg hh hmiss
    unfold explain_all
    apply explainRun_missing_aborts
    exact ⟨r, mem_explainRows_of t r hr (by rw [hg]; exact fun h => Option.noConfusion h) hh,
      g, hg, hmiss⟩
  · intro r hr g hg hh hmiss
    unfold evaluate_all
    apply evalRun_missing_aborts
    exact ⟨r, mem_evalRows_of t r hr (by rw [hg]; exact fun h => Option.noConfusion h) hh,
      g, hg, hmiss⟩

/-- Witness for C6 (amended) at the one-sample table whose good blob is
missing: the perturbation part fires non-vacuously. -/
theorem C6_missing_blob_witness :
    RefsBelow c6Table c6Store.next ∧ MissingBlobBehavior c6Table c6Store ∧
      (∃ e, attack_all c6Table c6Store 0 = Except.error e) := by
  have h := C6_missing_blob c6Table c6Store (by decide)
  exact ⟨by decide, h, h.2.1 5 ⟨c6Sample, by decide, by decide, by decide⟩ (by rfl)⟩

/-- C6 counterexample: the perturbation stage aborts with the raised
`KeyError` on a missing blob instead of counting it as skipped and
completing, refuting the claim that every stage treats a missing blob
like invalid content. -/
theorem C6_missing_blob_counterexample :
    attack_all c6Table c6Store 0 = Except.error "KeyError" := by rfl

/-! ### Import failure-budget lemmas (claim C5 machinery) -/

theorem importGo_ok :
    ∀ (rows : List Bool) (p f : Nat), f + rows.count false < MAX_FAILURES →
      importGo rows none p f = .ok (p + rows.count true, f + rows.count false) := by
  intro rows
  induction rows with
  | nil =>
    intro p f h
    unfold importGo
    rw [if_neg (by simp at h; omega)]
    simp
  | cons r rest ih =>
    intro p f h
    unfold importGo
    rw [if_neg (by omega : ¬ MAX_FAILURES ≤ f)]
    cases r with
    | true =>
      have e1 : (true :: rest).count true = rest.count true + 1 := by simp
      have e2 : (true :: rest).count false = rest.count false := by simp
      rw [e2] at h ⊢
      rw [e1, if_pos rfl]
      dsimp only
      rw [show p + (rest.count true + 1) = p + 1 + rest.count true by omega]
      exact ih (p + 1) f h
    | false =>
      have e1 : (false :: rest).count true = rest.count true := by simp
      have e2 : (false :: rest).count false = rest.count false + 1 := by simp
      rw [e2] at h
      rw [e1, e2, if_neg (by simp)]
      rw [if_neg (by omega : ¬ MAX_FAILURES ≤ f + 1)]
      rw [show f + (rest.count false + 1) = f + 1 + rest.count false by omega]
      exact ih p (f + 1) (by omega)

theorem importGo_abort :
    ∀ (rows : List Bool) (p f : Nat), f < MAX_FAILURES →
      MAX_FAILURES ≤ f + rows.count false →
      importGo rows none p f = .error MAX_FAILURES := by
  intro rows
  induction rows with
  | nil =>
    intro p f h1 h2
    simp only [List.count_nil] at h2
    exact absurd h2 (by omega)
  | cons r rest ih =>
    intro p f h1 h2
    unfold importGo
    rw [if_neg (by omega : ¬ MAX_FAILURES ≤ f)]
    cases r with
    | true =>
      have e2 : (true :: rest).count false = rest.count false := by simp
      rw [e2] at h2
      rw [if_pos rfl]
      dsimp only
      exact ih (p + 1) f h1 h2
    | false =>
      have e2 : (false :: rest).count false = rest.count false + 1 := by simp
      rw [e2] at h2
      rw [if_neg (by simp)]
      by_cases hf : MAX_FAILURES ≤ f + 1
      · rw [if_pos hf]
        have : f + 1 = MAX_FAILURES := by omega
        rw [this]
      · rw [if_neg hf]
        exact ih p (f + 1) (by omega) (by omega)

/-! ### Claim C5 -/

/-- C5 as amended (corrected): the ChartX import enforces its failure
budget — fewer than `MAX_FAILURES = 50` per-row failures are absorbed
and the invocation completes with exact counters, and once failures
reach 50 the invocation aborts with the run-level `RuntimeError`.  The
derivation stages enforce no failure budget: `preprocess_all` always
completes, counting every failing key (missing or corrupt blob) as
skipped, however many there are.  (As stated — a budget on every stage
invocation — the claim is false, see the counterexample.) -/
theorem C5_failure_budget : FailureBudget := by
  refine ⟨?_, ?_, ?_⟩
  · intro rows h
    have hgo := importGo_ok rows 0 0 (by simpa using h)
    unfold importChartX
    simpa using hgo
  · intro rows h
    unfold importChartX
    exact importGo_abort rows 0 0 (by decide) (by simpa using h)
  · intro t store hrefs
    exact preprocess_all_skipped t store hrefs

/-- Witness for C5 (amended): 49 bad rows import fine, 50 abort; the
preprocessing skip count equals the failing-key count on a concrete
store. -/
theorem C5_failure_budget_witness :
    importChartX budgetRowsOk none =
      Except.ok (budgetRowsOk.count true, budgetRowsOk.count false) ∧
    importChartX budgetRowsBad none = Except.error MAX_FAILURES ∧
    RefsBelow c5Table c5Store.next ∧
    (preprocess_all c5Table c5Store).skipped =
      ((preprocessKeys c5Table).filter (fun k => decide (¬ keyOk c5Store k))).length := by
  obtain ⟨h1, h2, h3⟩ := C5_failure_budget
  exact ⟨h1 budgetRowsOk (by decide), h2 budgetRowsBad (by decide), by decide,
    h3 c5Table c5Store (by decide)⟩

set_option maxRecDepth 8192 in
/-- C5 counterexample: a preprocessing invocation accumulates 51
per-item failures — more than the only failure budget the code knows
(`MAX_FAILURES = 50` in the import) — yet completes normally with
counters instead of aborting. -/
theorem C5_counterexample :
    (preprocess_all c5Table c5Store).skipped = 51 ∧ MAX_FAILURES < 51 ∧
      (preprocess_all c5Table c5Store).rows_updated = 0 :=
  ⟨by decide, by decide, by decide⟩

/-! ### Idempotence lemmas (claim C3 machinery) -/

theorem explainUpd_hit (i : Nat) (d : String) (s : Sample) (h : s.id = i) :
    explainUpd i d s = { s with hidden_answer := some d } := by
  unfold explainUpd
  rw [if_pos h]

theorem explainUpd_not_hit (i : Nat) (d : String) (s : Sample) (h : ¬ s.id = i) :
    explainUpd i d s = s := by
  unfold explainUpd
  rw [if_neg h]

theorem evalUpd_hit (i : Nat) (o : String) (atk : Bool) (s : Sample) (h : s.id = i) :
    evalUpd i o atk s =
      { s with output_answer := some o, attack_succeeded := some atk } := by
  unfold evalUpd
  rw [if_pos h]

theorem evalUpd_not_hit (i : Nat) (o : String) (atk : Bool) (s : Sample)
    (h : ¬ s.id = i) : evalUpd i o atk s = s := by
  unfold evalUpd
  rw [if_neg h]

theorem preUpd_raw (k u : Nat) (res : PreResult) (s : Sample) :
    (preUpd k u res s).raw_graph = s.raw_graph := by
  unfold preUpd
  split_ifs <;> rfl

theorem preprocess_fold_allfail :
    ∀ (keys : List Nat) (st : PreState),
      (∀ k ∈ keys, ¬ keyOk st.store k) →
      ((keys.foldl preprocessKeyStep st).table = st.table ∧
       (keys.foldl preprocessKeyStep st).store = st.store ∧
       (keys.foldl preprocessKeyStep st).rows_updated = st.rows_updated) := by
  intro keys
  induction keys with
  | nil => intro st _; exact ⟨rfl, rfl, rfl⟩
  | cons k ks ih =>
    intro st hfail
    rw [List.foldl_cons]
    rcases hget : st.store.get k with _ | b
    · rw [preprocessKeyStep_missing st k hget]
      exact ih _ (fun k' hk' => hfail k' (List.mem_cons_of_mem k hk'))
    · rcases hps : preprocess_single b with _ | pair
      · rw [preprocessKeyStep_corrupt st k b hget hps]
        exact ih _ (fun k' hk' => hfail k' (List.mem_cons_of_mem k hk'))
      · obtain ⟨out, res⟩ := pair
        exact absurd (keyOk_some st.store k b out res hget hps)
          (hfail k (List.mem_cons_self k ks))

theorem preprocess_fold_exhausts :
    ∀ (keys : List Nat) (st : PreState),
      (∀ s ∈ st.table, s.raw_graph < st.store.next) →
      (∀ s ∈ st.table, s.good_graph = none → keyOk st.store s.raw_graph →
        s.raw_graph ∈ keys) →
      ∀ s ∈ (keys.foldl preprocessKeyStep st).table, s.good_graph = none →
        ¬ keyOk (keys.foldl preprocessKeyStep st).store s.raw_graph := by
  intro keys
  induction keys with
  | nil =>
    intro st _ hpend s hs hg hko
    exact absurd (hpend s hs hg hko) (List.not_mem_nil _)
  | cons k ks ih =>
    intro st hrefs hpend
    rw [List.foldl_cons]
    rcases hget : st.store.get k with _ | b
    · rw [preprocessKeyStep_missing st k hget]
      apply ih
      · exact hrefs
      · intro s hs hg hko
        rcases List.mem_cons.mp (hpend s hs hg hko) with heq | h
        · exact absurd (heq ▸ hko) (keyOk_missing st.store k hget)
        · exact h
    · rcases hps : preprocess_single b with _ | pair
      · rw [preprocessKeyStep_corrupt st k b hget hps]
        apply ih
        · exact hrefs
        · intro s hs hg hko
          rcases List.mem_cons.mp (hpend s hs hg hko) with heq | h
          · exact absurd (heq ▸ hko) (keyOk_corrupt st.store k b hget hps)
          · exact h
      · obtain ⟨out, res⟩ := pair
        rw [preprocessKeyStep_ok st k b out res hget hps]
        apply ih
        · intro s' hs'
          obtain ⟨s, hs, rfl⟩ := List.mem_map.mp hs'
          rw [store_next_put, preUpd_raw]
          exact Nat.lt_succ_of_lt (hrefs s hs)
        · intro s' hs' hg' hko'
          obtain ⟨s, hs, rfl⟩ := List.mem_map.mp hs'
          by_cases hhit : s.raw_graph = k ∧ s.good_graph = none
          · rw [preUpd_hit k _ res s hhit.1 hhit.2] at hg'
            exact Option.noConfusion hg'
          · rw [preUpd_not_hit k _ res s hhit] at hg' hko' ⊢
            have hlt := hrefs s hs
            have hko2 : keyOk st.store s.raw_graph :=
              (keyOk_put st.store (ImgBytes.valid out) s.raw_graph hlt).mp hko'
            rcases List.mem_cons.mp (hpend s hs hg' hko2) with heq | h
            · exact absurd ⟨heq, hg'⟩ hhit
            · exact h

theorem preprocess_idempotent (t : List Sample) (store : Store)
    (hrefs : RefsBelow t store.next) :
    (preprocess_all (preprocess_all t store).table
        (preprocess_all t store).store).rows_updated = 0 ∧
    (preprocess_all (preprocess_all t store).table
        (preprocess_all t store).store).table = (preprocess_all t store).table := by
  have hex := preprocess_fold_exhausts (preprocessKeys t) ⟨t, store, 0, 0, 0, []⟩
    (fun s hs => (hrefs s hs).1)
    (fun s hs hg _ => mem_preprocessKeys_of t s hs hg)
  have hfail : ∀ k ∈ preprocessKeys (preprocess_all t store).table,
      ¬ keyOk (preprocess_all t store).store k := by
    intro k hk
    unfold preprocessKeys at hk
    obtain ⟨s, hs, hraw⟩ := List.mem_map.mp (List.mem_dedup.mp hk)
    obtain ⟨hs2, hpred⟩ := List.mem_filter.mp hs
    have hg : s.good_graph = none := of_decide_eq_true hpred
    rw [← hraw]
    exact hex s hs2 hg
  have hall := preprocess_fold_allfail (preprocessKeys (preprocess_all t store).table)
    ⟨(preprocess_all t store).table, (preprocess_all t store).store, 0, 0, 0, []⟩ hfail
  exact ⟨hall.2.2, hall.1⟩

theorem attackRun_exhausts (st' : AttackState) :
    ∀ (keys : List Nat) (st : AttackState), attackRun keys st = .ok st' →
      (∀ s ∈ st.table, ∀ g, s.good_graph = some g → s.adversarial_graph = none →
        g ∈ keys) →
      ∀ s ∈ st'.table, ∀ g, s.good_graph = some g → s.adversarial_graph = none →
        False := by
  intro keys
  induction keys with
  | nil =>
    intro st hrun hpend
    cases hrun
    intro s hs g hg hadv
    exact absurd (hpend s hs g hg hadv) (List.not_mem_nil _)
  | cons k ks ih =>
    intro st hrun hpend
    rcases hget : st.store.get k with _ | b
    · rw [attackRun_cons_err k ks st _ (attackKeyStep_missing st k hget)] at hrun
      exact Except.noConfusion hrun
    · rw [attackRun_cons_ok k ks st _ (attackKeyStep_ok st k b hget)] at hrun
      apply ih _ hrun
      intro s' hs' g hg hadv
      obtain ⟨s, hs, rfl⟩ := List.mem_map.mp hs'
      by_cases hhit : s.good_graph = some k ∧ s.adversarial_graph = none
      · have hupd : attackUpd k st.store.next s =
            { s with adversarial_graph := some st.store.next } := by
          unfold attackUpd
          rw [if_pos hhit]
        rw [hupd] at hadv
        exact Option.noConfusion hadv
      · rw [attackUpd_not_hit k _ s hhit] at hg hadv
        rcases List.mem_cons.mp (hpend s hs g hg hadv) with heq | h
        · exact absurd ⟨by rw [hg, heq], hadv⟩ hhit
        · exact h

theorem attack_idempotent (t : List Sample) (store : Store) (st1 : AttackState)
    (hrun : attack_all t store 0 = .ok st1) :
    attack_all st1.table st1.store 0 = .ok ⟨st1.table, st1.store, 0, 0, [], []⟩ := by
  have hex := attackRun_exhausts st1 (attackKeys t 0) ⟨t, store, 0, 0, [], []⟩ hrun
    (fun s hs g hg hadv => mem_attackKeys_of t g ⟨s, hs, hg, hadv⟩)
  have hfilter : st1.table.filter
      (fun s => decide (s.good_graph ≠ none ∧ s.adversarial_graph = none)) = [] := by
    rw [List.filter_eq_nil_iff]
    intro s hs hpred
    obtain ⟨hg, hadv⟩ := of_decide_eq_true hpred
    rcases ho : s.good_graph with _ | g
    · exact hg ho
    · exact hex s hs g ho hadv
  have hkeys : attackKeys st1.table 0 = [] := by
    simp only [attackKeys, lt_irrefl, if_false, hfilter]
    rfl
  unfold attack_all
  rw [hkeys]
  rfl

theorem explainRun_exhausts (st' : ExplainState) :
    ∀ (rows : List Sample) (st : ExplainState), explainRun rows st = .ok st' →
      (∀ s ∈ st.table, s.good_graph ≠ none → s.hidden_answer = none →
        ∃ r ∈ rows, r.id = s.id) →
      ∀ s ∈ st'.table, s.good_graph ≠ none → s.hidden_answer = none → False := by
  intro rows
  induction rows with
  | nil =>
    intro st hrun hpend
    cases hrun
    intro s hs hg hh
    obtain ⟨r, hr, _⟩ := hpend s hs hg hh
    cases hr
  | cons r0 rs ih =>
    intro st hrun hpend
    rcases hg0 : r0.good_graph with _ | g0
    · rw [explainRun_cons_err r0 rs st _ (explainStep_null st r0 hg0)] at hrun
      exact Except.noConfusion hrun
    · rcases hb : st.store.get g0 with _ | b
      · rw [explainRun_cons_err r0 rs st _ (explainStep_missing st r0 g0 hg0 hb)] at hrun
        exact Except.noConfusion hrun
      · rw [explainRun_cons_ok r0 rs st _ (explainStep_ok st r0 g0 b hg0 hb)] at hrun
        apply ih _ hrun
        intro s' hs' hg hh
        obtain ⟨s, hs, rfl⟩ := List.mem_map.mp hs'
        by_cases hid : s.id = r0.id
        · rw [explainUpd_hit r0.id _ s hid] at hh
          exact Option.noConfusion hh
        · rw [explainUpd_not_hit r0.id _ s hid] at hg hh ⊢
          obtain ⟨r, hr, hrid⟩ := hpend s hs hg hh
          rcases List.mem_cons.mp hr with rfl | hr2
          · exact absurd hrid.symm hid
          · exact ⟨r, hr2, hrid⟩

theorem explain_idempotent (t : List Sample) (store : Store) (st1 : ExplainState)
    (hrun : explain_all t store 0 = .ok st1) :
    explain_all st1.table st1.store 0 = .ok ⟨st1.table, st1.store, 0, []⟩ := by
  have hex := explainRun_exhausts st1 (explainRows t 0) ⟨t, store, 0, []⟩ hrun
    (fun s hs hg hh => ⟨s, mem_explainRows_of t s hs hg hh, rfl⟩)
  have hfilter : st1.table.filter
      (fun s => decide (s.good_graph ≠ none ∧ s.hidden_answer = none)) = [] := by
    rw [List.filter_eq_nil_iff]
    intro s hs hpred
    obtain ⟨hg, hh⟩ := of_decide_eq_true hpred
    exact hex s hs hg hh
  have hrows : explainRows st1.table 0 = [] := by
    simp only [explainRows, lt_irrefl, if_false, hfilter]
    rfl
  unfold explain_all
  rw [hrows]
  rfl

theorem evalRun_exhausts (st' : EvalState) :
    ∀ (rows : List Sample) (st : EvalState), evalRun rows st = .ok st' →
      (∀ s ∈ st.table, s.adversarial_graph ≠ none → s.output_answer = none →
        ∃ r ∈ rows, r.id = s.id) →
      ∀ s ∈ st'.table, s.adversarial_graph ≠ none → s.output_answer = none →
        False := by
  intro rows
  induction rows with
  | nil =>
    intro st hrun hpend
    cases hrun
    intro s hs hg hh
    obtain ⟨r, hr, _⟩ := hpend s hs hg hh
    cases hr
  | cons r0 rs ih =>
    intro st hrun hpend
    rcases hg0 : r0.adversarial_graph with _ | g0
    · rw [evalRun_cons_err r0 rs st _ (evalStep_null st r0 hg0)] at hrun
      exact Except.noConfusion hrun
    · rcases hb : st.store.get g0 with _ | b
      · rw [evalRun_cons_err r0 rs st _ (evalStep_missing st r0 g0 hg0 hb)] at hrun
        exact Except.noConfusion hrun
      · rw [evalRun_cons_ok r0 rs st _ (evalStep_ok st r0 g0 b hg0 hb)] at hrun
        apply ih _ hrun
        intro s' hs' hg hh
        obtain ⟨s, hs, rfl⟩ := List.mem_map.mp hs'
        by_cases hid : s.id = r0.id
        · rw [evalUpd_hit r0.id _ _ s hid] at hh
          exact Option.noConfusion hh
        · rw [evalUpd_not_hit r0.id _ _ s hid] at hg hh ⊢
          obtain ⟨r, hr, hrid⟩ := hpend s hs hg hh
          rcases List.mem_cons.mp hr with rfl | hr2
          · exact absurd hrid.symm hid
          · exact ⟨r, hr2, hrid⟩

theorem eval_idempotent (t : List Sample) (store : Store) (st1 : EvalState)
    (hrun : evaluate_all t store 0 = .ok st1) :
    evaluate_all st1.table st1.store 0 = .ok ⟨st1.table, st1.store, 0, 0, 0, []⟩ := by
  have hex := evalRun_exhausts st1 (evalRows t 0) ⟨t, store, 0, 0, 0, []⟩ hrun
    (fun s hs hg hh => ⟨s, mem_evalRows_of t s hs hg hh, rfl⟩)
  have hfilter : st1.table.filter
      (fun s => decide (s.adversarial_graph ≠ none ∧ s.output_answer = none)) = [] := by
    rw [List.filter_eq_nil_iff]
    intro s hs hpred
    obtain ⟨hg, hh⟩ := of_decide_eq_true hpred
    exact hex s hs hg hh
  have hrows : evalRows st1.table 0 = [] := by
    simp only [evalRows, lt_irrefl, if_false, hfilter]
    rfl
  unfold evaluate_all
  rw [hrows]
  rfl

/-! ### Claim C3 -/

/-- C3 (confirmed): for each of the four stages, a second full run
immediately after a completed first run (no new data in between)
updates zero rows and leaves every column of every sample unchanged.
The `RefsBelow` hypothesis (needed only for the preprocessing part)
states that every blob identifier the table references was allocated
below the store's fresh counter, which is true of every real store
since `uuid4` never collides. -/
theorem C3_idempotent (t : List Sample) (store : Store)
    (hrefs : RefsBelow t store.next) : IdempotentRun t store := by
  refine ⟨preprocess_idempotent t store hrefs, ?_, ?_, ?_⟩
  · intro st1 hrun
    exact attack_idempotent t store st1 hrun
  · intro st1 hrun
    exact explain_idempotent t store st1 hrun
  · intro st1 hrun
    exact eval_idempotent t store st1 hrun

/-- Witness for C3 at the concrete table: all three `Except` stages
complete on the first run, so the idempotence consequents fire
non-vacuously. -/
theorem C3_idempotent_witness :
    RefsBelow wTable wStore.next ∧
      attack_all wTable wStore 0 = Except.ok wAttackRun ∧
      explain_all wTable wStore 0 = Except.ok wExplainRun ∧
      evaluate_all wTable wStore 0 = Except.ok wEvalRun ∧
      IdempotentRun wTable wStore :=
  ⟨by decide, by rfl, by rfl, by rfl,
    C3_idempotent wTable wStore (by decide)⟩

/-! ### Sharing lemmas (claim C2 machinery) -/

theorem preprocess_fold_pair :
    ∀ (keys : List Nat) (st : PreState) (i j k : Nat), keys.Nodup →
      ((∃ si sj, st.table.get? i = some si ∧ st.table.get? j = some sj ∧
         si.raw_graph = k ∧ sj.raw_graph = k ∧
         si.good_graph = none ∧ si.preprocess_meta = none ∧
         si.original_width = none ∧ si.original_height = none ∧
         sj.good_graph = none ∧ sj.preprocess_meta = none ∧
         sj.original_width = none ∧ sj.original_height = none ∧ k ∈ keys) ∨
       (∃ si sj, st.table.get? i = some si ∧ st.table.get? j = some sj ∧
         si.raw_graph = k ∧ sj.raw_graph = k ∧
         si.good_graph = sj.good_graph ∧ si.preprocess_meta = sj.preprocess_meta ∧
         si.original_width = sj.original_width ∧
         si.original_height = sj.original_height ∧ k ∉ keys)) →
      ∃ si sj, (keys.foldl preprocessKeyStep st).table.get? i = some si ∧
        (keys.foldl preprocessKeyStep st).table.get? j = some sj ∧
        si.good_graph = sj.good_graph ∧ si.preprocess_meta = sj.preprocess_meta ∧
        si.original_width = sj.original_width ∧
        si.original_height = sj.original_height := by
  intro keys
  induction keys with
  | nil =>
    intro st i j k _ hstart
    rcases hstart with
      ⟨si, sj, hi, hj, _, _, _, _, _, _, _, _, _, _, hmem⟩ |
      ⟨si, sj, hi, hj, _, _, e1, e2, e3, e4, _⟩
    · exact absurd hmem (List.not_mem_nil k)
    · exact ⟨si, sj, hi, hj, e1, e2, e3, e4⟩
  | cons k0 ks ih =>
    intro st i j k hnodup hstart
    rw [List.foldl_cons]
    obtain ⟨hk0, hnd⟩ := List.nodup_cons.mp hnodup
    rcases hget : st.store.get k0 with _ | b
    · rw [preprocessKeyStep_missing st k0 hget]
      apply ih _ i j k hnd
      rcases hstart with
        ⟨si, sj, hi, hj, hri, hrj, g1, m1, w1, h1, g2, m2, w2, h2, hmem⟩ |
        ⟨si, sj, hi, hj, hri, hrj, e1, e2, e3, e4, hnm⟩
      · rcases List.mem_cons.mp hmem with heq | hmem2
        · exact Or.inr ⟨si, sj, hi, hj, hri, hrj, by rw [g1, g2], by rw [m1, m2],
            by rw [w1, w2], by rw [h1, h2], heq ▸ hk0⟩
        · exact Or.inl ⟨si, sj, hi, hj, hri, hrj, g1, m1, w1, h1, g2, m2, w2, h2, hmem2⟩
      · exact Or.inr ⟨si, sj, hi, hj, hri, hrj, e1, e2, e3, e4,
          fun hc => hnm (List.mem_cons_of_mem k0 hc)⟩
    · rcases hps : preprocess_single b with _ | pair
      · rw [preprocessKeyStep_corrupt st k0 b hget hps]
        apply ih _ i j k hnd
        rcases hstart with
          ⟨si, sj, hi, hj, hri, hrj, g1, m1, w1, h1, g2, m2, w2, h2, hmem⟩ |
          ⟨si, sj, hi, hj, hri, hrj, e1, e2, e3, e4, hnm⟩
        · rcases List.mem_cons.mp hmem with heq | hmem2
          · exact Or.inr ⟨si, sj, hi, hj, hri, hrj, by rw [g1, g2], by rw [m1, m2],
              by rw [w1, w2], by rw [h1, h2], heq ▸ hk0⟩
          · exact Or.inl ⟨si, sj, hi, hj, hri, hrj, g1, m1, w1, h1, g2, m2, w2, h2, hmem2⟩
        · exact Or.inr ⟨si, sj, hi, hj, hri, hrj, e1, e2, e3, e4,
            fun hc => hnm (List.mem_cons_of_mem k0 hc)⟩
      · obtain ⟨out, res⟩ := pair
        rw [preprocessKeyStep_ok st k0 b out res hget hps]
        apply ih _ i j k hnd
        have hmap : ∀ (idx : Nat) (sx : Sample), st.table.get? idx = some sx →
            (st.table.map (preUpd k0 st.store.next res)).get? idx =
              some (preUpd k0 st.store.next res sx) := by
          intro idx sx hx
          rw [List.get?_map, hx]
          rfl
        rcases hstart with
          ⟨si, sj, hi, hj, hri, hrj, g1, m1, w1, h1, g2, m2, w2, h2, hmem⟩ |
          ⟨si, sj, hi, hj, hri, hrj, e1, e2, e3, e4, hnm⟩
        · rcases List.mem_cons.mp hmem with heq | hmem2
          · refine Or.inr ⟨preUpd k0 st.store.next res si,
              preUpd k0 st.store.next res sj, hmap i si hi, hmap j sj hj,
              ?_, ?_, ?_, ?_, ?_, ?_, heq ▸ hk0⟩
            · rw [preUpd_raw]; exact hri
            · rw [preUpd_raw]; exact hrj
            · rw [preUpd_hit k0 _ res si (hri.trans heq) g1,
                preUpd_hit k0 _ res sj (hrj.trans heq) g2]
            · rw [preUpd_hit k0 _ res si (hri.trans heq) g1,
                preUpd_hit k0 _ res sj (hrj.trans heq) g2]
            · rw [preUpd_hit k0 _ res si (hri.trans heq) g1,
                preUpd_hit k0 _ res sj (hrj.trans heq) g2]
            · rw [preUpd_hit k0 _ res si (hri.trans heq) g1,
                preUpd_hit k0 _ res sj (hrj.trans heq) g2]
          · have hne : k ≠ k0 := fun hc => hk0 (hc ▸ hmem2)
            have hui : preUpd k0 st.store.next res si = si :=
              preUpd_not_hit k0 _ res si (fun hc => hne (hri.symm.trans hc.1))
            have huj : preUpd k0 st.store.next res sj = sj :=
              preUpd_not_hit k0 _ res sj (fun hc => hne (hrj.symm.trans hc.1))
            refine Or.inl ⟨si, sj, ?_, ?_, hri, hrj, g1, m1, w1, h1, g2, m2, w2, h2, hmem2⟩
            · rw [hmap i si hi, hui]
            · rw [hmap j sj hj, huj]
        · have hne : k ≠ k0 := fun hc => hnm (hc ▸ List.mem_cons_self k0 ks)
          have hui : preUpd k0 st.store.next res si = si :=
            preUpd_not_hit k0 _ res si (fun hc => hne (hri.symm.trans hc.1))
          have huj : preUpd k0 st.store.next res sj = sj :=
            preUpd_not_hit k0 _ res sj (fun hc => hne (hrj.symm.trans hc.1))
          refine Or.inr ⟨si, sj, ?_, ?_, hri, hrj, e1, e2, e3, e4,
            fun hc => hnm (List.mem_cons_of_mem k0 hc)⟩
          · rw [hmap i si hi, hui]
          · rw [hmap j sj hj, huj]

/-! ### Claim C2 -/

/-- C2 as amended (corrected): after a preprocessing run, any two
samples that share a `raw_graph` and that were BOTH still unprocessed
when the run began end up with equal `good_graph`, `preprocess_meta`,
`original_width` and `original_height` (either both updated by the one
shared UPDATE, or both skipped).  (As stated — for every pair sharing a
raw reference — the claim is false: a sample already processed in an
earlier run keeps its old `good_graph`, while the sharer processed now
receives a freshly generated identifier; see the counterexample.) -/
theorem C2_sharing_amended (t : List Sample) (store : Store) (i j : Nat)
    (si sj : Sample) (hi : t.get? i = some si) (hj : t.get? j = some sj)
    (hraw : si.raw_graph = sj.raw_graph)
    (hgi : si.good_graph = none) (hgj : sj.good_graph = none)
    (hci : Coupled si) (hcj : Coupled sj) : SharingRun t store i j := by
  obtain ⟨mi, wi, hti⟩ := hci.1 hgi
  obtain ⟨mj, wj, htj⟩ := hcj.1 hgj
  exact preprocess_fold_pair (preprocessKeys t) ⟨t, store, 0, 0, 0, []⟩ i j
    si.raw_graph (preprocessKeys_nodup t)
    (Or.inl ⟨si, sj, hi, hj, rfl, hraw.symm, hgi, mi, wi, hti, hgj, mj, wj, htj,
      mem_preprocessKeys_of t si (List.get?_mem hi) hgi⟩)

/-- Witness for C2 (amended) at the concrete two-sample table sharing
raw reference 0, both unprocessed. -/
theorem C2_sharing_amended_witness :
    (mkSample 1 0 "qa" "aa").raw_graph = (mkSample 2 0 "qb" "ab").raw_graph ∧
      Coupled (mkSample 1 0 "qa" "aa") ∧ Coupled (mkSample 2 0 "qb" "ab") ∧
      SharingRun shareTable wStore 0 1 :=
  ⟨rfl, by decide, by decide,
    C2_sharing_amended shareTable wStore 0 1
      (mkSample 1 0 "qa" "aa") (mkSample 2 0 "qb" "ab")
      (by rfl) (by rfl) rfl rfl rfl (by decide) (by decide)⟩

/-- C2 counterexample: `c2A` was preprocessed in an earlier run
(`good_graph = 7`); `c2B` shares `raw_graph = 0` but is unprocessed.
After the preprocessing run, `c2B` receives the freshly generated
identifier 100 while `c2A` keeps 7, so samples with equal `raw_graph`
do not have equal `good_graph` after the run completes. -/
theorem C2_sharing_counterexample :
    c2A.raw_graph = c2B.raw_graph ∧
      (preprocess_all c2Table c2Store).table.map (fun s => s.good_graph) =
        [some 7, some 100] ∧
      ¬ ((some 7 : Option Nat) = some 100) :=
  ⟨rfl, by decide, by decide⟩

/-- C7 counterexample: in the perturbation run over `c7Table` the rows
are advanced in the order id 2 then id 1 — key order 3 < 9 reverses the
id order — so "samples are advanced in ascending-id order in every
stage run" is false as stated. -/
theorem C7_counterexample :
    attack_all c7Table c7Store 0 = Except.ok c7Run ∧
      c7Run.written_ids = [2, 1] ∧
      ¬ List.Sorted (· ≤ ·) c7Run.written_ids := by
  refine ⟨by rfl, by rfl, ?_⟩
  intro hcontra
  have h12 : (2 : Nat) ≤ 1 := List.rel_of_pairwise_cons hcontra (by
    show (1 : Nat) ∈ [1]
    simp)
  omega

end AGD
